import Mathlib

/-!
# Verification of the mijit JIT-compiler core

A shallow embedding, in Lean 4, of the parts of the mijit code base that the
frozen claims are about:

* `src/code/mod.rs` (and the revisions of it used by the other files):
  the instruction set (`Value`, `Action`, `TestOp`, `Width`, `AliasMask`,
  `Precision`, `UnaryOp`, `BinaryOp`).
* `src/optimizer/simulation.rs`: the symbolic simulator that turns a list of
  `Action`s into a dataflow graph.
* `src/optimizer/op.rs`: the node labels (`Op`) and `Op::to_action`.
* `src/target/x86_64/lowerer.rs`: the x86-64 lowerer.
* `src/optimizer/builder/allocator/mod.rs` and `src/optimizer/builder/mod.rs`:
  the register allocator.
* `src/beetle/mod.rs`: the reference Beetle machine.

Machine integers (`i64`, `u32`, …) are modelled by their bit pattern as a
`Nat`, reduced `% 2^64` (or `% 2^32`) exactly where the code wraps.  `i32`
immediates that are only compared, never wrapped, are modelled as `Int`.
Rust `panic!`/`expect` is modelled by `Option`: a function returns `none`
exactly when the Rust code panics.

Several helper modules of the repository are not among the given sources
(`util.rs` with `Usage` and `map_filter_max`, `optimizer/dataflow.rs`,
`builder/allocator/pool.rs`, `builder/allocator/placer.rs`, and the raw
x86-64 assembler).  Where a definition depends on them it is modelled from
the specification, and its doc comment says so.
-/

namespace Mijit

/-- Word size of an arithmetic operation (`Precision` in `code/mod.rs`). -/
inductive Precision where
  | P32
  | P64
deriving DecidableEq, Repr

/-- The bit width selected by a `Precision`: 32 or 64. -/
def Precision.bits : Precision → Nat
  | .P32 => 32
  | .P64 => 64

/-- The number of bytes transferred by a memory access (`Width`). -/
inductive Width where
  | one
  | two
  | four
  | eight
deriving DecidableEq, Repr

/-- Unary arithmetic operations (`UnaryOp`). -/
inductive UnaryOp where
  | abs
  | negate
  | not
deriving DecidableEq, Repr

/-- Binary arithmetic operations (`BinaryOp`). -/
inductive BinaryOp where
  | add
  | sub
  | mul
  | lsl
  | lsr
  | asr
  | and
  | or
  | xor
  | lt
  | ult
  | eq
  | max
  | min
deriving DecidableEq, Repr

/-- A dense code-level register index (`code::Register`).  The builder
(`builder/mod.rs`) numbers these `0 .. NUM_REGISTERS`, where
`NUM_REGISTERS = ALLOCATABLE_REGISTERS.len() = 13`. -/
abbrev Reg := Nat

/-- A spill slot or register (`code::Value`). -/
inductive Value where
  | register (r : Reg)
  | slot (s : Nat)
deriving DecidableEq, Repr

/-- A bitmask describing which memory accesses may alias (`AliasMask`,
internally a `u32`). -/
abbrev AliasMask := Nat

/-- `AliasMask::can_alias`: whether two masks have any bits in common. -/
def AliasMask.canAlias (a b : AliasMask) : Bool :=
  a.land b != 0

/-- Guard conditions (`code::TestOp`).  The constants are `i32`s. -/
inductive TestOp where
  | bits (v : Value) (mask value : Int)
  | lt (v : Value) (c : Int)
  | ge (v : Value) (c : Int)
  | ult (v : Value) (c : Int)
  | uge (v : Value) (c : Int)
  | eq (v : Value) (c : Int)
  | ne (v : Value) (c : Int)
  | always
deriving DecidableEq, Repr

/-- An imperative instruction (`code::Action`, in the revision used by
`optimizer/simulation.rs`, `target/x86_64/lowerer.rs` and `beetle/mod.rs`:
`Store` carries a destination register, a source, an (address, width) pair
and an `AliasMask`; there is no `Division` arm).  `i64` constants are
modelled by their 64-bit pattern as a `Nat`. -/
inductive Action where
  | constant (p : Precision) (dest : Reg) (value : Nat)
  | move (dest src : Value)
  | unary (op : UnaryOp) (p : Precision) (dest : Reg) (src : Value)
  | binary (op : BinaryOp) (p : Precision) (dest : Reg) (src1 src2 : Value)
  | load (dest : Reg) (addr : Value) (w : Width) (mask : AliasMask)
  | store (dest : Reg) (src : Value) (addr : Value) (w : Width) (mask : AliasMask)
  | push (src : Value)
  | pop (dest : Reg)
  | debug (src : Value)
deriving DecidableEq, Repr

/-! ## The dataflow graph and the simulator (`optimizer/simulation.rs`)

`optimizer/dataflow.rs` is not among the given sources.  Modelled from the
spec: the dataflow graph is an arena vector of nodes; each node carries an
`Op`, an ordered list of dependency inputs (node handles), an ordered list of
data inputs (`Out` handles of prior nodes) and a number of outputs; `Out` and
`Node` are small integer handles; the entry node is the first node and its
outputs are the live-in values. -/

/-- A node label (`optimizer/op.rs` `Op`, in the revision used by
`simulation.rs`, where `Load` and `Store` carry the `AliasMask` and the
stack operations `Push`/`Pop` exist). -/
inductive Op where
  | guard
  | convention
  | constant (value : Nat)
  | unary (p : Precision) (op : UnaryOp)
  | binary (p : Precision) (op : BinaryOp)
  | load (w : Width) (mask : AliasMask)
  | store (w : Width) (mask : AliasMask)
  | push
  | pop
deriving DecidableEq, Repr

/-- A handle to one output of a node: (node index, output index). -/
abbrev Out := Nat × Nat

/-- One node of a dataflow graph. -/
structure NodeData where
  op : Op
  deps : List Nat
  ins : List Out
  numOuts : Nat
deriving DecidableEq, Repr

/-- A dataflow graph: an arena of nodes, indexed by position. -/
abbrev Dataflow := List NodeData

/-- The list of `Out` handles of node `n` with `k` outputs
(`Dataflow::outs`). -/
def nodeOuts (n : Nat) (k : Nat) : List Out :=
  (List.range k).map fun i => (n, i)

/-- `Dataflow::new(n)`: a graph holding only the entry node, which has `n`
outputs (the live-in values). -/
def Dataflow.new (numIns : Nat) : Dataflow :=
  [⟨Op.convention, [], [], numIns⟩]

/-- The operation of node `i`, if `i` is in range. -/
def opAt (g : Dataflow) (i : Nat) : Option Op :=
  (g.get? i).map NodeData.op

/-- The dependency list of node `i` (empty if out of range). -/
def depsAt (g : Dataflow) (i : Nat) : List Nat :=
  ((g.get? i).map NodeData.deps).getD []

/-- Whether node `i` is a `Store` node. -/
def isStoreAt (g : Dataflow) (i : Nat) : Bool :=
  match opAt g i with
  | some (.store _ _) => true
  | _ => false

/-- Whether node `i` is a `Load` node. -/
def isLoadAt (g : Dataflow) (i : Nat) : Bool :=
  match opAt g i with
  | some (.load _ _) => true
  | _ => false

/-- The `AliasMask` of node `i`, if it is a memory access. -/
def maskAt (g : Dataflow) (i : Nat) : Option AliasMask :=
  match opAt g i with
  | some (.load _ m) => some m
  | some (.store _ m) => some m
  | _ => none

/-- Bindings from `Value`s to `Out`s (the `HashMap<Value, Out>` of
`Simulation`), modelled as an association list where an insert shadows
earlier entries. -/
abbrev Bindings := List (Value × Out)

/-- Insert (`HashMap::insert`): the new entry shadows any previous one. -/
def Bindings.insert (b : Bindings) (v : Value) (o : Out) : Bindings :=
  (v, o) :: b

/-- Lookup (`HashMap::get`). -/
def Bindings.lookup (b : Bindings) (v : Value) : Option Out :=
  (b.find? fun p => p.1 = v).map Prod.snd

/-- The state of a simulated execution of some `Action`s
(`simulation.rs` `struct Simulation`). -/
structure Simulation where
  /-- The `Dataflow` which is being built. -/
  dataflow : Dataflow
  /-- Maps each `Value` to the corresponding `Out`. -/
  bindings : Bindings
  /-- The most recent `Op::Store` instruction, or the entry node. -/
  store : Nat
  /-- All memory access instructions since `store`, including `store`. -/
  loads : List Nat
  /-- The most recent stack operation, or the entry node. -/
  stack : Nat
deriving DecidableEq, Repr

/-- `Simulation::new(inputs)`: on entry, only `inputs` are live; each is
bound to the corresponding output of the entry node. -/
def Simulation.new (inputs : List Value) : Simulation :=
  let dataflow := Dataflow.new inputs.length
  let entry := 0
  let bindings := (inputs.zip (nodeOuts entry inputs.length)).foldl
    (fun b p => Bindings.insert b p.1 p.2) []
  { dataflow := dataflow
    bindings := bindings
    store := entry
    loads := [entry]
    stack := entry }

/-- `Simulation::lookup`: the `Out` bound to `value`.  `none` models the
panic `"Read a dead value"`. -/
def Simulation.lookup (s : Simulation) (v : Value) : Option Out :=
  Bindings.lookup s.bindings v

/-- Look up every value of `ins`; `none` if any is dead. -/
def Simulation.lookupAll (s : Simulation) : List Value → Option (List Out)
  | [] => some []
  | v :: rest =>
      (s.lookup v).bind fun o => (s.lookupAll rest).map fun os => o :: os

/-- `Simulation::op`: a node representing `op` applied to `ins`, depending
on `deps`; binds `outs` to the node's outputs.  Returns the new state and
the new node's index. -/
def Simulation.op (s : Simulation) (op : Op) (deps : List Nat) (ins : List Value)
    (outs : List Reg) : Option (Simulation × Nat) :=
  (s.lookupAll ins).map fun insOuts =>
    let node := s.dataflow.length
    let dataflow := s.dataflow ++ [⟨op, deps, insOuts, outs.length⟩]
    let bindings := ((nodeOuts node outs.length).zip outs).foldl
      (fun b p => Bindings.insert b (Value.register p.2) p.1) s.bindings
    ({ s with dataflow := dataflow, bindings := bindings }, node)

/-- `Simulation::move_`: binds `dest` to the same `Out` as `src`. -/
def Simulation.moveBinding (s : Simulation) (dest src : Value) : Option Simulation :=
  (s.lookup src).map fun o => { s with bindings := Bindings.insert s.bindings dest o }

/-- `Simulation::action`: simulate executing `action`. -/
def Simulation.action (s : Simulation) (a : Action) : Option Simulation :=
  match a with
  | .move dest src =>
      s.moveBinding dest src
  | .constant p dest value =>
      -- A `P32` constant is masked to its low 32 bits.
      let value := if p = Precision.P32 then value % 2 ^ 32 else value
      (s.op (Op.constant value) [] [] [dest]).map Prod.fst
  | .unary op p dest src =>
      (s.op (Op.unary p op) [] [src] [dest]).map Prod.fst
  | .binary op p dest src1 src2 =>
      (s.op (Op.binary p op) [] [src1, src2] [dest]).map Prod.fst
  | .load dest addr w mask =>
      (s.op (Op.load w mask) [s.store] [addr] [dest]).map fun p =>
        { p.1 with loads := p.1.loads ++ [p.2] }
  | .store dest src addr w mask =>
      (s.op (Op.store w mask) s.loads [src, addr] [dest]).bind fun p =>
        (p.1.moveBinding (Value.register dest) src).map fun s2 =>
          { s2 with store := p.2, loads := [p.2] }
  | .push src =>
      (s.op Op.push [s.stack] [src] []).map fun p =>
        { p.1 with stack := p.2 }
  | .pop dest =>
      (s.op Op.pop [s.stack] [] [dest]).map fun p =>
        { p.1 with stack := p.2 }
  | .debug src =>
      (s.op Op.push [s.stack] [src] []).map fun p =>
        { p.1 with stack := p.2 }

/-- Simulate a whole action list. -/
def runActions (s : Simulation) (as_ : List Action) : Option Simulation :=
  match as_ with
  | [] => some s
  | a :: rest => (s.action a).bind fun s2 => runActions s2 rest

/-- The source `Value`s read by an `Action`, in the order `Simulation::action`
looks them up. -/
def Action.reads : Action → List Value
  | .constant _ _ _ => []
  | .move _ src => [src]
  | .unary _ _ _ src => [src]
  | .binary _ _ _ src1 src2 => [src1, src2]
  | .load _ addr _ _ => [addr]
  | .store _ src addr _ _ => [src, addr]
  | .push src => [src]
  | .pop _ => []
  | .debug src => [src]

/-- `Op::to_action` (`optimizer/op.rs`): aggregates an `Op` with outputs and
inputs to make an `Action`.  `none` models the panics for `Guard` and
`Convention`.  (That file is from a revision whose `Op` lacks `Push`/`Pop`
and whose memory `Action`s carry no mask; the `Push`/`Pop` arms therefore
also return `none`, and the `Load`/`Store` arms forward the mask carried by
our `Op`.  Only the `Constant` arm is exercised by the claims.)  The
assertions on the lengths of `outs` and `ins` are modelled as `none`. -/
def Op.toAction (op : Op) (outs : List Reg) (ins : List Value) : Option Action :=
  match op with
  | .guard => none
  | .convention => none
  | .constant c =>
      match outs, ins with
      | [d], [] => some (Action.constant Precision.P64 d c)
      | _, _ => none
  | .unary p u =>
      match outs, ins with
      | [d], [s] => some (Action.unary u p d s)
      | _, _ => none
  | .binary p b =>
      match outs, ins with
      | [d], [s1, s2] => some (Action.binary b p d s1 s2)
      | _, _ => none
  | .load w m =>
      match outs, ins with
      | [d], [a] => some (Action.load d a w m)
      | _, _ => none
  | .store w m =>
      match outs, ins with
      | [d], [s, a] => some (Action.store d s a w m)
      | _, _ => none
  | .push => none
  | .pop => none

/-! ## The x86-64 lowerer (`target/x86_64/lowerer.rs`)

The raw assembler (`target/x86_64/assembler.rs`) is not among the given
sources, and the spec declares it an external collaborator.  Modelled from
the spec: each assembler method emits one concrete instruction; the
instructions are listed in emission order, and their execution semantics is
the documented x86-64 semantics (32-bit operations zero-extend into the
64-bit destination; shift counts are masked to the operand width; `cmov`
with a false condition still zero-extends a 32-bit destination; `mov` and
`cmov` do not write the flags). -/

/-- An x86-64 general-purpose register (`target/x86_64` `Register`). -/
inductive XReg where
  | RA
  | RC
  | RD
  | RB
  | RSP
  | RBP
  | RSI
  | RDI
  | R8
  | R9
  | R10
  | R11
  | R12
  | R13
  | R14
  | R15
deriving DecidableEq, Repr

/-- The `Register` used for the pool pointer (`const POOL: Register = R8`). -/
def POOL : XReg := XReg.R8

/-- The `Register` used as a temporary variable (`const TEMP: Register = R12`). -/
def TEMP : XReg := XReg.R12

/-- The registers available for allocation (`ALLOCATABLE_REGISTERS`).
This omits `POOL` and `TEMP`. -/
def ALLOCATABLE_REGISTERS : List XReg :=
  [XReg.RA, XReg.RD, XReg.RC, XReg.RB, XReg.RBP, XReg.RSI, XReg.RDI,
   XReg.R9, XReg.R10, XReg.R11, XReg.R13, XReg.R14, XReg.R15]

/-- `impl From<code::Register> for Register`: indexes
`ALLOCATABLE_REGISTERS`.  (The Rust code panics on an index out of range;
theorems assume `r < 13`.) -/
def fromCodeReg (r : Reg) : XReg :=
  ALLOCATABLE_REGISTERS.getD r XReg.RA

/-- The lowerer's low-level analogue of `code::Value`
(`lowerer.rs` `enum Value`), which can hold unallocatable registers. -/
inductive XValue where
  | register (r : XReg)
  | slot (s : Nat)
deriving DecidableEq, Repr

/-- `impl From<code::Value> for Value` in `lowerer.rs`. -/
def toXValue : Value → XValue
  | .register r => .register (fromCodeReg r)
  | .slot s => .slot s

/-- Binary ALU operations of the assembler (`assembler::BinaryOp`). -/
inductive ABinOp where
  | add
  | sub
  | and
  | or
  | xor
  | cmp
deriving DecidableEq, Repr

/-- Shift operations of the assembler (`assembler::ShiftOp`). -/
inductive ShiftOp where
  | shl
  | shr
  | sar
deriving DecidableEq, Repr

/-- Branch/cmov conditions of the assembler (`assembler::Condition`). -/
inductive Cond where
  | Z
  | NZ
  | L
  | GE
  | B
  | AE
  | G
deriving DecidableEq, Repr

/-- One emitted x86-64 instruction, one constructor per assembler method the
lowerer calls.  Memory operands are `(base register, byte offset)` pairs.
`i64` immediates are `Int` (sign matters for `const_`); `i32` immediates of
`const_op` are `Int`. -/
inductive Instr where
  /-- `Assembler::const_`: move an immediate into a register. -/
  | const (p : Precision) (dest : XReg) (value : Int)
  /-- `Assembler::const_preserving_flags`: like `const`, without `xor`-zeroing
  tricks, so the flags survive. -/
  | constPreserving (p : Precision) (dest : XReg) (value : Int)
  /-- `Assembler::const_op`: ALU operation with an `i32` immediate. -/
  | constOp (op : ABinOp) (p : Precision) (dest : XReg) (imm : Int)
  /-- `Assembler::op`: register-register ALU operation. -/
  | op (op : ABinOp) (p : Precision) (dest src : XReg)
  /-- `Assembler::load_op`: ALU operation with a memory source operand. -/
  | loadOp (op : ABinOp) (p : Precision) (dest : XReg) (base : XReg) (off : Nat)
  /-- `Assembler::move_`: register-register move. -/
  | move (p : Precision) (dest src : XReg)
  /-- `Assembler::move_if`: conditional move from a register. -/
  | moveIf (cc : Cond) (isTrue : Bool) (p : Precision) (dest src : XReg)
  /-- `Assembler::load_if`: conditional move from memory. -/
  | loadIf (cc : Cond) (isTrue : Bool) (p : Precision) (dest : XReg)
      (base : XReg) (off : Nat)
  /-- `Assembler::load`: load from memory. -/
  | load (p : Precision) (dest : XReg) (base : XReg) (off : Nat)
  /-- `Assembler::store`: store to memory. -/
  | store (p : Precision) (base : XReg) (off : Nat) (src : XReg)
  /-- `Assembler::shift`: shift `dest` by `RC`. -/
  | shift (op : ShiftOp) (p : Precision) (dest : XReg)
  /-- `Assembler::mul`: two-operand multiply. -/
  | mul (p : Precision) (dest src : XReg)
  /-- `Assembler::load_mul`: multiply by a memory operand. -/
  | loadMul (p : Precision) (dest : XReg) (base : XReg) (off : Nat)
  /-- `Lowerer::jump_if`: conditional branch; pushes one patch onto the
  target label's patch list. -/
  | jumpIf (cc : Cond) (isTrue : Bool)
deriving DecidableEq, Repr

/-- `Lowerer::move_`: move `src` to `dest` if they are different. -/
def lowMove (dest src : XReg) : List Instr :=
  if dest = src then [] else [Instr.move Precision.P64 dest src]

/-- `Lowerer::move_away_from`: move `src` to `TEMP` if `src` is `dest`.
Returns the (possibly changed) operand and the emitted instructions. -/
def moveAwayFrom (src : XValue) (dest : XReg) : XValue × List Instr :=
  if src = XValue.register dest then
    (XValue.register TEMP, lowMove TEMP dest)
  else
    (src, [])

/-- `Lowerer::slot_address`: the base and offset of `slot` in the persistent
data: `[POOL + 8 * (slot + 1)]`. -/
def slotAddress (s : Nat) : XReg × Nat :=
  (POOL, (s + 1) * 8)

/-- `Lowerer::load_slot`. -/
def loadSlot (dest : XReg) (s : Nat) : List Instr :=
  [Instr.load Precision.P64 dest (slotAddress s).1 (slotAddress s).2]

/-- `Lowerer::src_to_register`: if `src` is a register, returns it, otherwise
loads it into `reg` and returns `reg`. -/
def srcToRegister (src : XValue) (reg : XReg) : XReg × List Instr :=
  match src with
  | .register r => (r, [])
  | .slot s => (reg, loadSlot reg s)

/-- `Lowerer::value_op`: `a.op()` or `a.load_op()` depending on whether `src`
is a register or a slot. -/
def valueOp (op : ABinOp) (p : Precision) (dest : XReg) (src : XValue) : List Instr :=
  match src with
  | .register r => [Instr.op op p dest r]
  | .slot s => [Instr.loadOp op p dest (slotAddress s).1 (slotAddress s).2]

/-- `Lowerer::value_move_if`. -/
def valueMoveIf (cc : Cond) (isTrue : Bool) (p : Precision) (dest : XReg)
    (src : XValue) : List Instr :=
  match src with
  | .register r => [Instr.moveIf cc isTrue p dest r]
  | .slot s => [Instr.loadIf cc isTrue p dest (slotAddress s).1 (slotAddress s).2]

/-- `Lowerer::asymmetric_binary`: ensure `src2` is not `dest`, get `src1`
into `dest`, then apply the callback. -/
def asymmetricBinary (dest : XReg) (src1 src2 : XValue)
    (callback : XReg → XValue → List Instr) : List Instr :=
  let m := moveAwayFrom src2 dest
  let s1 := srcToRegister src1 dest
  m.2 ++ s1.2 ++ lowMove dest s1.1 ++ callback dest m.1

/-- `Lowerer::symmetric_binary`: swap the operands if that gives better
code, then behave like `asymmetric_binary`. -/
def symmetricBinary (dest : XReg) (src1 src2 : XValue)
    (callback : XReg → XValue → List Instr) : List Instr :=
  match src1 with
  | .slot _ => asymmetricBinary dest src2 src1 callback
  | _ =>
    if src2 = XValue.register dest then
      asymmetricBinary dest src2 src1 callback
    else
      asymmetricBinary dest src1 src2 callback

/-- `Lowerer::shift_binary`: `RC` is the only legal shift-count register;
save it in `TEMP` unless it is `src2`, put the count in `RC`, the operand in
`dest`, shift, and restore `RC`. -/
def shiftBinary (op : ShiftOp) (p : Precision) (dest : XReg)
    (src1 src2 : XValue) : List Instr :=
  let saveRc := src2 ≠ XValue.register XReg.RC
  let save := if saveRc then lowMove TEMP XReg.RC else []
  let s2 := srcToRegister src2 XReg.RC
  let s1 := srcToRegister src1 dest
  let restore := if saveRc then lowMove XReg.RC TEMP else []
  save ++ s2.2 ++ lowMove XReg.RC s2.1 ++ s1.2 ++ lowMove dest s1.1
    ++ [Instr.shift op p dest] ++ restore

/-- `Lowerer::compare_binary`: get `src1` into a register (`TEMP` if
spilled), compare with `src2`, then apply the callback. -/
def compareBinary (p : Precision) (dest : XReg) (src1 src2 : XValue)
    (callback : XReg → XReg → List Instr) : List Instr :=
  let s1 := srcToRegister src1 TEMP
  s1.2 ++ valueOp ABinOp.cmp p s1.1 src2 ++ callback dest s1.1

/-- `Lowerer::lower_binary_op`. -/
def lowerBinaryOp (binaryOp : BinaryOp) (p : Precision) (dest : Reg)
    (src1 src2 : Value) : List Instr :=
  let destX := fromCodeReg dest
  let src1X := toXValue src1
  let src2X := toXValue src2
  match binaryOp with
  | .add => symmetricBinary destX src1X src2X fun d s => valueOp ABinOp.add p d s
  | .sub => asymmetricBinary destX src1X src2X fun d s => valueOp ABinOp.sub p d s
  | .mul => symmetricBinary destX src1X src2X fun d s =>
      match s with
      | .register r => [Instr.mul p d r]
      | .slot sl => [Instr.loadMul p d (slotAddress sl).1 (slotAddress sl).2]
  | .lsl => shiftBinary ShiftOp.shl p destX src1X src2X
  | .lsr => shiftBinary ShiftOp.shr p destX src1X src2X
  | .asr => shiftBinary ShiftOp.sar p destX src1X src2X
  | .and => symmetricBinary destX src1X src2X fun d s => valueOp ABinOp.and p d s
  | .or => symmetricBinary destX src1X src2X fun d s => valueOp ABinOp.or p d s
  | .xor => symmetricBinary destX src1X src2X fun d s => valueOp ABinOp.xor p d s
  | .lt => compareBinary p destX src1X src2X fun d _ =>
      [Instr.constPreserving p d (-1), Instr.loadIf Cond.L false p d POOL 0]
  | .ult => compareBinary p destX src1X src2X fun d _ =>
      [Instr.constPreserving p d (-1), Instr.loadIf Cond.B false p d POOL 0]
  | .eq => compareBinary p destX src1X src2X fun d _ =>
      [Instr.constPreserving p d (-1), Instr.loadIf Cond.Z false p d POOL 0]
  | .max => compareBinary p destX src1X src2X fun d s1 =>
      lowMove d s1 ++ valueMoveIf Cond.L true p d src2X
  | .min => compareBinary p destX src1X src2X fun d s1 =>
      lowMove d s1 ++ valueMoveIf Cond.G true p d src2X

/-- `Lowerer::lower_test_op`: compile a guard `(TestOp, Precision)`.  Each
`jumpIf` pushes exactly one patch onto `false_label`. -/
def lowerTestOp (testOp : TestOp) (p : Precision) : List Instr :=
  match testOp with
  | .bits discriminant mask value =>
      [Instr.const p TEMP mask]
        ++ valueOp ABinOp.and p TEMP (toXValue discriminant)
        ++ [Instr.constOp ABinOp.cmp p TEMP value, Instr.jumpIf Cond.Z false]
  | .lt discriminant value =>
      let d := srcToRegister (toXValue discriminant) TEMP
      d.2 ++ [Instr.constOp ABinOp.cmp p d.1 value, Instr.jumpIf Cond.L false]
  | .ge discriminant value =>
      let d := srcToRegister (toXValue discriminant) TEMP
      d.2 ++ [Instr.constOp ABinOp.cmp p d.1 value, Instr.jumpIf Cond.GE false]
  | .ult discriminant value =>
      let d := srcToRegister (toXValue discriminant) TEMP
      d.2 ++ [Instr.constOp ABinOp.cmp p d.1 value, Instr.jumpIf Cond.B false]
  | .uge discriminant value =>
      let d := srcToRegister (toXValue discriminant) TEMP
      d.2 ++ [Instr.constOp ABinOp.cmp p d.1 value, Instr.jumpIf Cond.AE false]
  | .eq discriminant value =>
      let d := srcToRegister (toXValue discriminant) TEMP
      d.2 ++ [Instr.constOp ABinOp.cmp p d.1 value, Instr.jumpIf Cond.Z false]
  | .ne discriminant value =>
      let d := srcToRegister (toXValue discriminant) TEMP
      d.2 ++ [Instr.constOp ABinOp.cmp p d.1 value, Instr.jumpIf Cond.NZ false]
  | .always => []

/-- The number of patches `lower_test_op` pushes onto `false_label`: one per
emitted conditional branch. -/
def countJumps (l : List Instr) : Nat :=
  l.countP fun i =>
    match i with
    | .jumpIf _ _ => true
    | _ => false

/-- `Lowerer::lower_action` for the `Constant` arm:
`self.const_(prec, dest, value)`.  (Only this arm is needed by the claims;
the value is an `i64` pattern.) -/
def lowerConstantAction (p : Precision) (dest : Reg) (value : Nat) : List Instr :=
  [Instr.const p (fromCodeReg dest) (Int.ofNat value)]

/-! ### Execution semantics of the emitted instructions

Modelled from the spec and the documented x86-64 semantics (the assembler is
an external collaborator assumed to emit the correct bytes). -/

/-- The machine state: a value per register, a byte-addressed memory holding
64-bit words, and the flags.  The flags are `some (p, a, b)` after
`cmp a, b` at precision `p`, and `none` after any other flag-writing
instruction (nothing in the modelled sequences reads those). -/
structure MState where
  regs : XReg → Nat
  mem : Nat → Nat
  flags : Option (Precision × Nat × Nat)

/-- Read a register, as a 64-bit value. -/
def MState.reg (s : MState) (r : XReg) : Nat :=
  s.regs r % 2 ^ 64

/-- Read the 64-bit word at `[base + off]`. -/
def MState.read (s : MState) (base : XReg) (off : Nat) : Nat :=
  s.mem ((s.reg base + off) % 2 ^ 64) % 2 ^ 64

/-- Write a register at a precision: a 32-bit write zero-extends. -/
def MState.write (s : MState) (p : Precision) (r : XReg) (v : Nat) : MState :=
  { s with regs := fun r2 => if r2 = r then v % 2 ^ p.bits else s.regs r2 }

/-- The value of an `i64` immediate at a precision, as a bit pattern. -/
def immPattern (p : Precision) (v : Int) : Nat :=
  (v % (2 ^ p.bits : Nat)).toNat

/-- Two's-complement reading of the low `w` bits of a value. -/
def toSigned (w : Nat) (v : Nat) : Int :=
  let m := v % 2 ^ w
  if m < 2 ^ (w - 1) then (m : Int) else (m : Int) - (2 ^ w : Nat)

/-- Evaluate a condition against the flags.  `none` flags give an arbitrary
fixed answer (the modelled sequences always execute a `cmp` first). -/
def evalCond (flags : Option (Precision × Nat × Nat)) (cc : Cond) : Bool :=
  match flags with
  | none => false
  | some (p, a, b) =>
      let w := p.bits
      let ua := a % 2 ^ w
      let ub := b % 2 ^ w
      match cc with
      | .Z => ua = ub
      | .NZ => ua ≠ ub
      | .L => toSigned w a < toSigned w b
      | .GE => toSigned w b ≤ toSigned w a
      | .B => ua < ub
      | .AE => ub ≤ ua
      | .G => toSigned w b < toSigned w a

/-- The result pattern of an ALU operation (`cmp` is handled separately). -/
def aluResult (op : ABinOp) (w : Nat) (a b : Nat) : Nat :=
  match op with
  | .add => (a + b) % 2 ^ w
  | .sub => (a + (2 ^ w - b % 2 ^ w)) % 2 ^ w
  | .and => (a % 2 ^ w).land (b % 2 ^ w)
  | .or => (a % 2 ^ w).lor (b % 2 ^ w)
  | .xor => (a % 2 ^ w).xor (b % 2 ^ w)
  | .cmp => a % 2 ^ w

/-- The result of a shift: x86-64 masks the count to the operand width. -/
def shiftResult (op : ShiftOp) (w : Nat) (a count : Nat) : Nat :=
  let k := count % w
  match op with
  | .shl => (a % 2 ^ w) * 2 ^ k % 2 ^ w
  | .shr => a % 2 ^ w / 2 ^ k
  | .sar => (Int.shiftRight (toSigned w a) k % (2 ^ w : Nat)).toNat

/-- Execute one instruction. -/
def stepInstr (s : MState) (i : Instr) : MState :=
  match i with
  | .const p dest v => s.write p dest (immPattern p v)
  | .constPreserving p dest v => s.write p dest (immPattern p v)
  | .constOp op p dest imm =>
      match op with
      | .cmp => { s with flags := some (p, s.reg dest, immPattern p imm) }
      | _ => { s.write p dest (aluResult op p.bits (s.reg dest) (immPattern p imm))
               with flags := none }
  | .op op p dest src =>
      match op with
      | .cmp => { s with flags := some (p, s.reg dest, s.reg src) }
      | _ => { s.write p dest (aluResult op p.bits (s.reg dest) (s.reg src))
               with flags := none }
  | .loadOp op p dest base off =>
      match op with
      | .cmp => { s with flags := some (p, s.reg dest, s.read base off) }
      | _ => { s.write p dest (aluResult op p.bits (s.reg dest) (s.read base off))
               with flags := none }
  | .move p dest src => s.write p dest (s.reg src)
  | .moveIf cc b p dest src =>
      if evalCond s.flags cc = b then
        s.write p dest (s.reg src)
      else
        -- A 32-bit cmov zero-extends the destination even when it does not move.
        s.write p dest (s.reg dest)
  | .loadIf cc b p dest base off =>
      if evalCond s.flags cc = b then
        s.write p dest (s.read base off)
      else
        s.write p dest (s.reg dest)
  | .load p dest base off => s.write p dest (s.read base off)
  | .store p base off src =>
      { s with mem := fun a =>
          if a = (s.reg base + off) % 2 ^ 64 then s.reg src % 2 ^ p.bits
          else s.mem a }
  | .shift op p dest =>
      { s.write p dest (shiftResult op p.bits (s.reg dest) (s.reg XReg.RC))
        with flags := none }
  | .mul p dest src =>
      { s.write p dest (s.reg dest % 2 ^ p.bits * (s.reg src % 2 ^ p.bits))
        with flags := none }
  | .loadMul p dest base off =>
      { s.write p dest (s.reg dest % 2 ^ p.bits * (s.read base off % 2 ^ p.bits))
        with flags := none }
  | .jumpIf _ _ => s

/-- Execute a straight-line instruction list. -/
def execInstrs (s : MState) (l : List Instr) : MState :=
  l.foldl stepInstr s

/-- The value of a code-level `Value` in a machine state: a register reads
its x86-64 image, a slot reads its pool word `[POOL + 8 * (s + 1)]`. -/
def readValue (s : MState) (v : Value) : Nat :=
  match v with
  | .register r => s.reg (fromCodeReg r)
  | .slot sl => s.read POOL ((sl + 1) * 8)

/-- The all-ones pattern at a precision: the boolean "true". -/
def allOnes (p : Precision) : Nat := 2 ^ p.bits - 1

/-- The value of a lowerer-level operand in a machine state. -/
def readX (s : MState) : XValue → Nat
  | .register r => s.reg r
  | .slot sl => s.read POOL ((sl + 1) * 8)

/-- The comparison denoted by a comparison `BinaryOp`, at a precision, on
64-bit patterns (`Lt` signed, `Ult` unsigned, `Eq` equality). -/
def cmpHolds (op : BinaryOp) (p : Precision) (a b : Nat) : Bool :=
  match op with
  | .lt => toSigned p.bits a < toSigned p.bits b
  | .ult => a % 2 ^ p.bits < b % 2 ^ p.bits
  | .eq => a % 2 ^ p.bits = b % 2 ^ p.bits
  | _ => false

/-! ## The register allocator (`optimizer/builder/allocator/mod.rs`)

`NUM_REGISTERS = ALLOCATABLE_REGISTERS.len() = 13` (`builder/mod.rs`), so the
allocator works over the dense register indices `Fin 13`.

Three helpers of this file are not among the given sources and are modelled
from the spec:
* `util::Usage` — a multiset-stack of the `Out` references remaining to be
  consumed; `push`/`pop` work at the top; `topmost(n)` is the stack position
  of the topmost occurrence of `n` (`none` when `n` has no remaining use).
  A *smaller* position is consumed *later*, i.e. is a *further* next use.
* `util::map_filter_max` — the index of the maximum of the mapped values;
  per the spec's determinism note, ties break by register index (we take the
  first, i.e. lowest, register index).  `free_a_register` maps each dirty
  register to `Reverse(topmost)`, so the maximum is the *minimum* stack
  position: the occupant whose next use is furthest away (Belady's MIN).
* `allocator::pool::RegisterPool` — tracks which registers are clean;
  `free` marks a register clean, `allocate` takes the lowest-index clean
  register and marks it dirty.
* `allocator::placer::Placer` — places items at cycle times; the times do
  not affect which instructions exist, so the placed items are modelled as
  a list in emission order. -/

/-- A dataflow node handle, as used by the allocator. -/
abbrev ANode := Nat

/-- `allocator::Instruction`: the allocator's output items. -/
inductive AInstr where
  | spill (outX outY : ANode)
  | node (n : ANode)
deriving DecidableEq, Repr

/-- `Usage::topmost`: the stack position of the topmost occurrence of `n`
(positions count from the bottom of the stack; the top of the stack is the
highest position). -/
def topmost (u : List ANode) (n : ANode) : Option Nat :=
  (u.reverse.findIdx? (· = n)).map fun i => u.length - 1 - i

/-- An association list keyed by nodes (the `HashMap<Node, Register>`
`allocation`); an insert shadows earlier entries. -/
def lookupNode (l : List (ANode × Fin 13)) (n : ANode) : Option (Fin 13) :=
  (l.find? fun p => p.1 = n).map Prod.snd

/-- The state of the allocation algorithm (`struct Allocator`), restricted
to the fields that determine which instructions are emitted and which
registers are allocated (the cycle-time bookkeeping is omitted, see the
`Placer` note above). -/
structure AllocState where
  /-- The remaining uses (`usage`), a stack with its top at the end. -/
  usage : List ANode
  /-- The contents of each register (`regs`). -/
  regs : Fin 13 → Option ANode
  /-- The `RegisterPool`: which registers are clean. -/
  clean : Fin 13 → Bool
  /-- The register allocated for each node's result (`allocation`). -/
  allocation : List (ANode × Fin 13)
  /-- The instructions placed so far, in order. -/
  emitted : List AInstr

/-- `RegisterPool::free`: mark a register clean. -/
def freeReg (s : AllocState) (r : Fin 13) : AllocState :=
  { s with clean := fun r2 => if r2 = r then true else s.clean r2 }

/-- `RegisterPool::num_clean`. -/
def numClean (s : AllocState) : Nat :=
  (List.finRange 13).countP fun r => s.clean r

/-- `RegisterPool::allocate`: take the lowest-index clean register and mark
it dirty; `none` if every register is dirty. -/
def allocateReg (s : AllocState) : Option (Fin 13 × AllocState) :=
  ((List.finRange 13).find? fun r => s.clean r).map fun r =>
    (r, { s with clean := fun r2 => if r2 = r then false else s.clean r2 })

/-- The dirty registers together with the stack position of their occupant's
next use (the argument of `map_filter_max` in `free_a_register`).  `none` as
a position models the panic `"Dirty register is unused"`. -/
def dirtyCandidates (s : AllocState) : List (Fin 13 × Option Nat) :=
  (List.finRange 13).filterMap fun r =>
    match s.regs r, s.clean r with
    | some n, false => some (r, topmost s.usage n)
    | _, _ => none

/-- The element with the minimal key, ties to the earliest element. -/
def argminKey (l : List (Fin 13 × Nat)) : Option (Fin 13) :=
  match l with
  | [] => none
  | c :: rest => some (rest.foldl (fun b c2 => if c2.2 < b.2 then c2 else b) c).1

/-- `Allocator::free_a_register`: select the dirty register whose occupant
has the furthest next use (`map_filter_max` of `Reverse(topmost)`, i.e. the
minimal stack position, ties to the lowest register index) and free it.
`none` models the panics `"No register is dirty"` (no dirty candidate at
all) and `"Dirty register is unused"` (a dirty register whose occupant has
no remaining use). -/
def freeARegister (s : AllocState) : Option (Fin 13 × AllocState) :=
  if (dirtyCandidates s).isEmpty then none
  else if (dirtyCandidates s).any fun c => c.2.isNone then none
  else
    (argminKey ((dirtyCandidates s).filterMap fun c => c.2.map fun t => (c.1, t))).map
      fun r => (r, freeReg s r)

/-- One iteration of the `spill_until` loop: free two registers, then emit
one `Spill` naming both occupants. -/
def spillStep (s : AllocState) : Option AllocState :=
  (freeARegister s).bind fun rx =>
    (freeARegister rx.2).bind fun ry =>
      (rx.2.regs rx.1).bind fun outX =>
        (ry.2.regs ry.1).map fun outY =>
          { ry.2 with emitted := ry.2.emitted ++ [AInstr.spill outX outY] }

/-- `Allocator::spill_until`: spill values until at least `numRequired`
registers are free.  The Rust loop has no fuel; the `fuel` argument only
bounds the recursion depth, and `none` at exhausted fuel over-approximates
divergence (fuel `13` is always enough, since each iteration cleans two of
the 13 registers). -/
def spillUntilF (fuel : Nat) (numRequired : Nat) (s : AllocState) : Option AllocState :=
  match fuel with
  | 0 => if numRequired ≤ numClean s then some s else none
  | f + 1 =>
    if numRequired ≤ numClean s then some s
    else (spillStep s).bind (spillUntilF f numRequired)

/-- `Allocator::current_reg`: the register containing `node`, if any. -/
def currentReg (s : AllocState) (n : ANode) : Option (Fin 13) :=
  (lookupNode s.allocation n).filter fun r => s.regs r = some n

/-- `Allocator::pop_use`: pop one node from `usage`; free its register, if
any, if it has no remaining uses. -/
def popUse (s : AllocState) : Option (ANode × AllocState) :=
  s.usage.getLast?.map fun n =>
    let s1 := { s with usage := s.usage.dropLast }
    if topmost s1.usage n = none then
      match currentReg s1 n with
      | some r => (n, freeReg s1 r)
      | none => (n, s1)
    else
      (n, s1)

/-- Pop `k` uses (the keep-alives of a node). -/
def popUses (k : Nat) (s : AllocState) : Option AllocState :=
  match k with
  | 0 => some s
  | k + 1 => (popUse s).bind fun p => popUses k p.2

/-- `Allocator::add_node`, restricted to the allocation bookkeeping (the
cycle-time computation does not change `usage`, `regs`, `clean`,
`allocation`, or which instructions exist).  `hasOut` is `dataflow.has_out`
for the node. -/
def addNode (s : AllocState) (n : ANode) (numKeepAlives : Nat) (hasOut : Bool) :
    Option AllocState :=
  (popUses numKeepAlives s).bind fun s1 =>
    if hasOut then
      (spillUntilF 13 1 s1).bind fun s2 =>
        (allocateReg s2).map fun ra =>
          let s3 := { ra.2 with
            allocation := (n, ra.1) :: ra.2.allocation
            regs := fun r2 => if r2 = ra.1 then some n else ra.2.regs r2 }
          let s4 := if topmost s3.usage n = none then freeReg s3 ra.1 else s3
          { s4 with emitted := s4.emitted ++ [AInstr.node n] }
    else
      some { s1 with emitted := s1.emitted ++ [AInstr.node n] }

/-- Run the allocator over a node list (`allocate`'s main loop); each entry
is a node with its keep-alive count and whether it has an output. -/
def allocRun (s : AllocState) (nodes : List (ANode × Nat × Bool)) : Option AllocState :=
  match nodes with
  | [] => some s
  | x :: rest => (addNode s x.1 x.2.1 x.2.2).bind fun s2 => allocRun s2 rest

/-! ## The reference Beetle machine (`beetle/mod.rs`)

Only the parts the claims are about: the `Builder` helpers and the
transition lists `get_code` returns for `State::Ploopp` and
`State::Ploopm`. -/

/-- Beetle's states (`beetle::State`). -/
inductive BState where
  | root
  | dispatch
  | next
  | pick
  | roll
  | qdup
  | lshift
  | rshift
  | branch
  | branchi
  | qbranch
  | qbranchi
  | loop
  | loopi
  | ploopp
  | ploopm
  | ploop
  | ploopip
  | ploopim
  | ploopi
  | halt
deriving DecidableEq, Repr

/-- Beetle's registers and other globals (`beetle::Global`), with their slot
numbers (`Global as usize`). -/
inductive Global where
  | bep
  | ba
  | bsp
  | brp
  | bs0
  | br0
  | bThrow
  | bBad
  | bNotAddress
  | bMemory
  | opcode
  | stack0
  | stack1
  | loopFlag
  | loopStep
  | loopNew
  | loopOld
deriving DecidableEq, Repr

/-- The slot number of a `Global` (its `repr(u8)` value). -/
def Global.idx : Global → Nat
  | .bep => 0
  | .ba => 1
  | .bsp => 2
  | .brp => 3
  | .bs0 => 4
  | .br0 => 5
  | .bThrow => 6
  | .bBad => 7
  | .bNotAddress => 8
  | .bMemory => 9
  | .opcode => 10
  | .stack0 => 11
  | .stack1 => 12
  | .loopFlag => 13
  | .loopStep => 14
  | .loopNew => 15
  | .loopOld => 16

/-- `impl From<Global> for Value`: a global is a pool slot. -/
def Global.val (g : Global) : Value := Value.slot g.idx

/-- `const TEMP: Register = code::REGISTERS[0]` in `beetle/mod.rs` (a
code-level register, distinct from the lowerer's x86 `TEMP`). -/
def BEETLE_TEMP : Reg := 0

/-- `cell_bytes(n)`: the number of bytes in `n` cells (wrapping `4 * n`). -/
def cellBytes (n : Nat) : Nat := 4 * n % 2 ^ 64

/-- `Builder::move_`. -/
def bMove (dest src : Value) : List Action :=
  [Action.move dest src]

/-- `Builder::binary`: apply a 32-bit op into `TEMP`, then move to `dest`. -/
def bBinary (op : BinaryOp) (dest : Value) (src1 src2 : Value) : List Action :=
  [Action.binary op Precision.P32 BEETLE_TEMP src1 src2]
    ++ bMove dest (Value.register BEETLE_TEMP)

/-- `Builder::const_binary`: load the constant into `TEMP`, then `binary`. -/
def bConstBinary (op : BinaryOp) (dest : Value) (src : Value) (c : Nat) : List Action :=
  [Action.constant Precision.P32 BEETLE_TEMP c]
    ++ bBinary op dest src (Value.register BEETLE_TEMP)

/-- One transition, as `Beetle::get_code()` returns it (`code::Case`):
a guard condition with its precision, the actions, and the new state. -/
structure Case where
  condition : TestOp × Precision
  actions : List Action
  newState : BState
deriving DecidableEq, Repr

/-- The transition list `get_code` returns for `State::Ploopp`
(`beetle/mod.rs` lines 402-413). -/
def getCode_Ploopp : List Case :=
  [ { condition := (TestOp.lt Global.loopFlag.val 0, Precision.P32)
      actions :=
        -- Discard the loop index and limit.
        bConstBinary BinaryOp.add Global.brp.val Global.brp.val (cellBytes 2)
        -- Add 4 to EP.
        ++ bConstBinary BinaryOp.add Global.bep.val Global.bep.val (cellBytes 1)
      newState := BState.root }
  , { condition := (TestOp.ge Global.loopFlag.val 0, Precision.P32)
      actions := []
      newState := BState.branch } ]

/-- The transition list `get_code` returns for `State::Ploopm`
(`beetle/mod.rs` lines 414-425). -/
def getCode_Ploopm : List Case :=
  [ { condition := (TestOp.lt Global.loopFlag.val 0, Precision.P32)
      actions :=
        -- Discard the loop index and limit.
        bConstBinary BinaryOp.add Global.brp.val Global.brp.val (cellBytes 2)
        -- Add 4 to EP.
        ++ bConstBinary BinaryOp.add Global.bep.val Global.bep.val (cellBytes 1)
      newState := BState.root }
  , { condition := (TestOp.ge Global.loopFlag.val 0, Precision.P32)
      actions := []
      newState := BState.branch } ]

/-! ## Derived notions used to state the claims -/

/-- Dependency reachability with explicit fuel.  Dependencies of
well-formed graphs point strictly backwards, so fuel `a` always suffices to
decide whether `b` is reachable from `a` along `dep` edges. -/
def reachF (g : Dataflow) : Nat → Nat → Nat → Bool
  | 0, a, b => a == b
  | f + 1, a, b =>
      a == b || (depsAt g a).any fun d => decide (d < a) && reachF g f d b

/-- Node `b` is reachable from node `a` along `dep` edges (reflexively and
transitively). -/
def reach (g : Dataflow) (a b : Nat) : Bool :=
  reachF g a a b

/-- Whether node `i` is a `Store` whose `AliasMask` conflicts with `m`. -/
def conflictsStore (g : Dataflow) (m : AliasMask) (i : Nat) : Bool :=
  match opAt g i with
  | some (.store _ m2) => AliasMask.canAlias m2 m
  | _ => false

/-- The most recent node before `j` that is a `Store` whose `AliasMask`
conflicts with `m`, or `0` (the entry node) if there is none. -/
def recentConflictingStore (g : Dataflow) (j : Nat) (m : AliasMask) : Nat :=
  ((List.range j).reverse.find? (conflictsStore g m)).getD 0

/-- The most recent node before `j` that is a `Store` (of any mask), or `0`
if there is none. -/
def lastStoreBefore (g : Dataflow) (j : Nat) : Nat :=
  ((List.range j).reverse.find? fun i => isStoreAt g i).getD 0

/-- A code-level `Value` names a register the builder can produce: a
register index below `NUM_REGISTERS = 13` (slots are unrestricted). -/
def Value.valid13 : Value → Bool
  | .register r => decide (r < 13)
  | .slot _ => true

/-- Like `valid13`, and additionally not register index `2`, whose x86-64
image is `RC` — the register `shift_binary` uses for the shift count. -/
def Value.validShift : Value → Bool
  | .register r => decide (r < 13) && decide (r ≠ 2)
  | .slot _ => true

/-- The invariant the simulator maintains on its dataflow graph, its
most-recent-store node and its open-loads list. -/
structure SimInv (s : Simulation) : Prop where
  wf : ∀ j d, d ∈ depsAt s.dataflow j → d < j
  entryConv : opAt s.dataflow 0 = some Op.convention
  storeLt : s.store < s.dataflow.length
  storeIs : s.store = 0 ∨ isStoreAt s.dataflow s.store = true
  stackLt : s.stack < s.dataflow.length
  storeMem : s.store ∈ s.loads
  loadsLt : ∀ l ∈ s.loads, l < s.dataflow.length
  noStoreAfter : ∀ i, s.store < i → isStoreAt s.dataflow i = false
  reachStores : ∀ i, i < s.dataflow.length → (i = 0 ∨ isStoreAt s.dataflow i = true) →
    reach s.dataflow s.store i = true
  loadsMem : ∀ l, s.store < l → isLoadAt s.dataflow l = true → l ∈ s.loads
  claimA : ∀ j, isLoadAt s.dataflow j = true → ∀ i, i < j →
    (i = 0 ∨ isStoreAt s.dataflow i = true) → reach s.dataflow j i = true
  claimB : ∀ j w m, opAt s.dataflow j = some (Op.store w m) → ∀ l, l < j →
    isLoadAt s.dataflow l = true → lastStoreBefore s.dataflow j < l →
    l ∈ depsAt s.dataflow j

/-! ## Concrete states used by the witnesses -/

/-- A machine state with a few distinctive register values and a zeroed
pool word at `[POOL + 0]`. -/
def testState : MState :=
  { regs := fun r =>
      match r with
      | XReg.RD => 7
      | XReg.RC => 9
      | XReg.RB => 32
      | _ => 0
    mem := fun a => if a = 16 then 5 else 0
    flags := none }

/-- A machine state refuting the claim that an x86-64-lowered shift by the
word width leaves zero: register `RD` (code register `1`) holds `1` and
register `RB` (code register `3`) holds `32`. -/
def cState : MState :=
  { regs := fun r =>
      match r with
      | XReg.RD => 1
      | XReg.RB => 32
      | _ => 0
    mem := fun _ => 0
    flags := none }

/-- An all-zero machine state. -/
def zeroMState : MState :=
  { regs := fun _ => 0, mem := fun _ => 0, flags := none }

/-- A short action sequence with two `Store`s around a `Load`: node `1` is a
`Store` with mask `1`, node `2` a `Load` with mask `3`, node `3` a `Store`
with mask `1`. -/
def demoActions : List Action :=
  [ Action.store 0 (Value.register 1) (Value.register 1) Width.four 1
  , Action.load 2 (Value.register 1) Width.four 3
  , Action.store 0 (Value.register 1) (Value.register 1) Width.four 1 ]

/-- The result of simulating `demoActions` from live-ins
`[register 0, register 1]`. -/
def demoSim : Simulation :=
  (runActions (Simulation.new [Value.register 0, Value.register 1]) demoActions).getD
    ⟨[], [], 0, [], 0⟩

/-- An allocator state with ten clean registers; registers `0`, `1`, `2`
are dirty and hold nodes `3`, `7`, `5`; the usage stack (top last) is
`[5, 3, 7]`, so node `5` has the furthest next use. -/
def demoAlloc : AllocState :=
  { usage := [5, 3, 7]
    regs := fun r =>
      if r = (0 : Fin 13) then some 3
      else if r = (1 : Fin 13) then some 7
      else if r = (2 : Fin 13) then some 5
      else none
    clean := fun r =>
      ¬(r = (0 : Fin 13) ∨ r = (1 : Fin 13) ∨ r = (2 : Fin 13))
    allocation := [(3, 0), (7, 1), (5, 2)]
    emitted := [] }

/-- The result of `spill_until(12)` on `demoAlloc`. -/
def demoAllocResult : AllocState :=
  (spillUntilF 13 12 demoAlloc).getD ⟨[], fun _ => none, fun _ => true, [], []⟩

/-- An allocator state that allocates node `5`. -/
def witAlloc : AllocState :=
  { usage := []
    regs := fun _ => none
    clean := fun _ => true
    allocation := []
    emitted := [] }

/-- The result of running the allocator on one node from `witAlloc`. -/
def witAllocResult : AllocState :=
  (allocRun witAlloc [(5, 0, true)]).getD ⟨[], fun _ => none, fun _ => true, [], []⟩

/-! ## Helper lemmas -/

theorem Bindings.lookup_insert (b : Bindings) (k : Value) (o : Out) (v : Value) :
    Bindings.lookup (Bindings.insert b k o) v =
      if v = k then some o else Bindings.lookup b v := by
  simp only [Bindings.insert, Bindings.lookup, List.find?]
  by_cases h : v = k
  · simp [h]
  · simp only [h, if_false]
    have : (decide (k = v)) = false := by
      simp [decide_eq_false_iff_not]
      exact fun h2 => h h2.symm
    simp [this]

theorem lookupAll_eq_none (s : Simulation) (ins : List Value) (v : Value)
    (hv : v ∈ ins) (h : s.lookup v = none) : s.lookupAll ins = none := by
  induction ins with
  | nil => cases hv
  | cons x xs ih =>
    rcases List.mem_cons.mp hv with rfl | hv2
    · simp [Simulation.lookupAll, h]
    · simp [Simulation.lookupAll, ih hv2]

/-- `fromCodeReg` of an allocatable register index is never a reserved
register of the lowerer. -/
theorem fromCodeReg_facts : ∀ r < 13, fromCodeReg r ∈ ALLOCATABLE_REGISTERS ∧
    fromCodeReg r ≠ POOL ∧ fromCodeReg r ≠ TEMP ∧ fromCodeReg r ≠ XReg.RSP := by
  decide

theorem fin13_alloc_facts : ∀ r : Fin 13,
    fromCodeReg r.val ∈ ALLOCATABLE_REGISTERS ∧
    fromCodeReg r.val ≠ POOL ∧ fromCodeReg r.val ≠ TEMP := by
  decide

theorem Precision.bits_le (p : Precision) : p.bits ≤ 64 := by cases p <;> decide

theorem pow_bits_le (p : Precision) : 2 ^ p.bits ≤ 2 ^ 64 :=
  Nat.pow_le_pow_right (by norm_num) p.bits_le

theorem mod_bits_lt64 (p : Precision) (v : Nat) : v % 2 ^ p.bits < 2 ^ 64 :=
  lt_of_lt_of_le (Nat.mod_lt _ (Nat.pos_pow_of_pos _ (by norm_num))) (pow_bits_le p)

theorem MState.reg_write_self (s : MState) (p : Precision) (r : XReg) (v : Nat) :
    (s.write p r v).reg r = v % 2 ^ p.bits := by
  show (if r = r then v % 2 ^ p.bits else s.regs r) % 2 ^ 64 = v % 2 ^ p.bits
  rw [if_pos rfl]
  exact Nat.mod_eq_of_lt (mod_bits_lt64 p v)

theorem MState.reg_write_other (s : MState) (p : Precision) (r r2 : XReg) (v : Nat)
    (h : r2 ≠ r) : (s.write p r v).reg r2 = s.reg r2 := by
  show (if r2 = r then v % 2 ^ p.bits else s.regs r2) % 2 ^ 64 = s.regs r2 % 2 ^ 64
  rw [if_neg h]

theorem MState.read_write (s : MState) (p : Precision) (r base : XReg) (v : Nat)
    (off : Nat) (h : base ≠ r) : (s.write p r v).read base off = s.read base off := by
  show s.mem (((s.write p r v).reg base + off) % 2 ^ 64) % 2 ^ 64 = _
  rw [MState.reg_write_other s p r base v h]
  rfl

theorem MState.flags_write (s : MState) (p : Precision) (r : XReg) (v : Nat) :
    (s.write p r v).flags = s.flags := rfl

theorem MState.read_setFlags (s : MState) (f : Option (Precision × Nat × Nat))
    (b : XReg) (o : Nat) : ({ s with flags := f } : MState).read b o = s.read b o := rfl

theorem MState.reg_setFlags (s : MState) (f : Option (Precision × Nat × Nat))
    (r : XReg) : ({ s with flags := f } : MState).reg r = s.reg r := rfl

theorem MState.read_lt (s : MState) (b : XReg) (o : Nat) : s.read b o < 2 ^ 64 :=
  Nat.mod_lt _ (by norm_num)

theorem MState.read_mod (s : MState) (b : XReg) (o : Nat) :
    s.read b o % 2 ^ 64 = s.read b o :=
  Nat.mod_eq_of_lt (s.read_lt b o)

theorem MState.reg_lt (s : MState) (r : XReg) : s.reg r < 2 ^ 64 :=
  Nat.mod_lt _ (by norm_num)

theorem MState.reg_mod (s : MState) (r : XReg) : s.reg r % 2 ^ 64 = s.reg r :=
  Nat.mod_eq_of_lt (s.reg_lt r)

theorem readValue_eq (s : MState) (v : Value) : readValue s v = readX s (toXValue v) := by
  cases v <;> rfl

theorem immPattern_neg_one (p : Precision) : immPattern p (-1) = allOnes p := by
  cases p <;> decide

theorem allOnes_mod_bits (p : Precision) : allOnes p % 2 ^ p.bits = allOnes p := by
  cases p <;> decide

theorem P64_bits : Precision.P64.bits = 64 := rfl

/-- Executing the code `compare_binary` emits for `Lt`/`Ult`/`Eq` — a
compare, `dest := -1`, then a conditional load of the pool's zero word —
leaves the boolean encoding of the comparison in `dest`. -/
theorem compare_select_exec (p : Precision) (destX : XReg) (src1X src2X : XValue)
    (cc : Cond) (s : MState)
    (hdP : destX ≠ POOL) (hdT : destX ≠ TEMP)
    (h2T : src2X ≠ XValue.register TEMP)
    (hzero : s.read POOL 0 = 0) :
    (execInstrs s (compareBinary p destX src1X src2X (fun d _ =>
        [Instr.constPreserving p d (-1), Instr.loadIf cc false p d POOL 0]))).reg destX
      = if evalCond (some (p, readX s src1X, readX s src2X)) cc
        then allOnes p else 0 := by
  have hPd : POOL ≠ destX := Ne.symm hdP
  have hTP : TEMP ≠ POOL := by decide
  have hPT : POOL ≠ TEMP := by decide
  have hr2T : ∀ r2, src2X = XValue.register r2 → r2 ≠ TEMP := by
    intro r2 hr2 hT
    exact h2T (by rw [hr2, hT])
  cases src1X with
  | register r1 =>
    cases src2X with
    | register r2 =>
      simp only [compareBinary, srcToRegister, valueOp, slotAddress, loadSlot,
        List.append_assoc, List.cons_append, List.nil_append,
        execInstrs, List.foldl_cons, List.foldl_nil, stepInstr, readX]
      rw [apply_ite (fun st : MState => st.reg destX)]
      simp only [MState.reg_write_self, MState.reg_write_other, MState.read_write,
        MState.read_setFlags, MState.reg_setFlags, MState.flags_write,
        P64_bits, MState.read_mod, MState.reg_mod,
        immPattern_neg_one, allOnes_mod_bits, hPd, hTP, hdP, hdT,
        hPT, ne_eq, not_false_eq_true, hzero, Nat.zero_mod]
      rcases Bool.dichotomy (evalCond (some (p, s.reg r1, s.reg r2)) cc) with h | h <;>
        simp [h, MState.read_write, hPT, hzero]
    | slot sl2 =>
      simp only [compareBinary, srcToRegister, valueOp, slotAddress, loadSlot,
        List.append_assoc, List.cons_append, List.nil_append,
        execInstrs, List.foldl_cons, List.foldl_nil, stepInstr, readX]
      rw [apply_ite (fun st : MState => st.reg destX)]
      simp only [MState.reg_write_self, MState.reg_write_other, MState.read_write,
        MState.read_setFlags, MState.reg_setFlags, MState.flags_write,
        P64_bits, MState.read_mod, MState.reg_mod,
        immPattern_neg_one, allOnes_mod_bits, hPd, hTP, hdP, hdT,
        hPT, ne_eq, not_false_eq_true, hzero, Nat.zero_mod]
      rcases Bool.dichotomy (evalCond (some (p, s.reg r1,
        s.read POOL ((sl2 + 1) * 8))) cc) with h | h <;>
        simp [h, MState.read_write, hPT, hzero]
  | slot sl1 =>
    cases src2X with
    | register r2 =>
      have h2 : r2 ≠ TEMP := hr2T r2 rfl
      simp only [compareBinary, srcToRegister, valueOp, slotAddress, loadSlot,
        List.append_assoc, List.cons_append, List.nil_append,
        execInstrs, List.foldl_cons, List.foldl_nil, stepInstr, readX]
      rw [apply_ite (fun st : MState => st.reg destX)]
      simp only [MState.reg_write_self, MState.reg_write_other, MState.read_write,
        MState.read_setFlags, MState.reg_setFlags, MState.flags_write,
        P64_bits, MState.read_mod, MState.reg_mod,
        immPattern_neg_one, allOnes_mod_bits, hPd, hTP, hdP, hdT, h2,
        hPT, ne_eq, not_false_eq_true, hzero, Nat.zero_mod]
      rcases Bool.dichotomy (evalCond (some (p, s.read POOL ((sl1 + 1) * 8),
        s.reg r2)) cc) with h | h <;> simp [h, MState.read_write, hPT, hzero]
    | slot sl2 =>
      simp only [compareBinary, srcToRegister, valueOp, slotAddress, loadSlot,
        List.append_assoc, List.cons_append, List.nil_append,
        execInstrs, List.foldl_cons, List.foldl_nil, stepInstr, readX]
      rw [apply_ite (fun st : MState => st.reg destX)]
      simp only [MState.reg_write_self, MState.reg_write_other, MState.read_write,
        MState.read_setFlags, MState.reg_setFlags, MState.flags_write,
        P64_bits, MState.read_mod, MState.reg_mod,
        immPattern_neg_one, allOnes_mod_bits, hPd, hTP, hdP, hdT,
        hPT, ne_eq, not_false_eq_true, hzero, Nat.zero_mod]
      rcases Bool.dichotomy (evalCond (some (p, s.read POOL ((sl1 + 1) * 8),
        s.read POOL ((sl2 + 1) * 8))) cc) with h | h <;>
        simp [h, MState.read_write, hPT, hzero]

theorem shiftResult_lt (op : ShiftOp) (p : Precision) (a c : Nat) :
    shiftResult op p.bits a c < 2 ^ p.bits := by
  have hw : 0 < 2 ^ p.bits := Nat.pos_pow_of_pos _ (by norm_num)
  cases op with
  | shl => exact Nat.mod_lt _ hw
  | shr =>
    exact lt_of_le_of_lt (Nat.div_le_self _ _) (Nat.mod_lt _ hw)
  | sar =>
    show (Int.shiftRight (toSigned p.bits a) (c % p.bits) % ((2 ^ p.bits : Nat) : Int)).toNat
        < 2 ^ p.bits
    have h2 : (0 : Int) < ((2 ^ p.bits : Nat) : Int) := by exact_mod_cast hw
    have := Int.emod_lt_of_pos (Int.shiftRight (toSigned p.bits a) (c % p.bits)) h2
    omega

theorem shiftResult_mod (op : ShiftOp) (p : Precision) (a c : Nat) :
    shiftResult op p.bits a c % 2 ^ p.bits = shiftResult op p.bits a c :=
  Nat.mod_eq_of_lt (shiftResult_lt op p a c)

theorem MState.reg_mod_lit (s : MState) (r : XReg) :
    s.reg r % 18446744073709551616 = s.reg r := s.reg_mod r

theorem MState.read_mod_lit (s : MState) (b : XReg) (o : Nat) :
    s.read b o % 18446744073709551616 = s.read b o := s.read_mod b o

theorem shift_exec (op : ShiftOp) (p : Precision) (destX : XReg) (src1X src2X : XValue)
    (s : MState)
    (hdRC : destX ≠ XReg.RC) (hdP : destX ≠ POOL) (hdT : destX ≠ TEMP)
    (h1RC : src1X ≠ XValue.register XReg.RC) (h1T : src1X ≠ XValue.register TEMP)
    (h2T : src2X ≠ XValue.register TEMP) :
    (execInstrs s (shiftBinary op p destX src1X src2X)).reg destX =
      shiftResult op p.bits (readX s src1X) (readX s src2X) := by
  have hTP : TEMP ≠ POOL := by decide
  have hPT : POOL ≠ TEMP := by decide
  have hRCP : XReg.RC ≠ POOL := by decide
  have hRCT : XReg.RC ≠ TEMP := by decide
  have hTRC : TEMP ≠ XReg.RC := by decide
  have hPRC : POOL ≠ XReg.RC := by decide
  have hRCd : XReg.RC ≠ destX := Ne.symm hdRC
  have hPd : POOL ≠ destX := Ne.symm hdP
  have hTd : TEMP ≠ destX := Ne.symm hdT
  by_cases hsave : src2X = XValue.register XReg.RC
  · subst hsave
    cases src1X with
    | register r1 =>
      have hr1RC : r1 ≠ XReg.RC := fun h => h1RC (by rw [h])
      have hr1T : r1 ≠ TEMP := fun h => h1T (by rw [h])
      have hRCr1 : XReg.RC ≠ r1 := Ne.symm hr1RC
      have hTr1 : TEMP ≠ r1 := Ne.symm hr1T
      by_cases hd1 : destX = r1
      · subst hd1
        simp [shiftBinary, srcToRegister, loadSlot, slotAddress, lowMove, execInstrs,
          stepInstr, readX, MState.reg_write_self, MState.reg_write_other,
          MState.reg_setFlags, MState.read_write, MState.read_mod, MState.reg_mod,
          MState.reg_mod_lit, MState.read_mod_lit, shiftResult_mod, P64_bits, *]
      · simp [shiftBinary, srcToRegister, loadSlot, slotAddress, lowMove, execInstrs,
          stepInstr, readX, MState.reg_write_self, MState.reg_write_other,
          MState.reg_setFlags, MState.read_write, MState.read_mod, MState.reg_mod,
          MState.reg_mod_lit, MState.read_mod_lit, shiftResult_mod, P64_bits, *]
    | slot sl1 =>
      simp [shiftBinary, srcToRegister, loadSlot, slotAddress, lowMove, execInstrs,
        stepInstr, readX, MState.reg_write_self, MState.reg_write_other,
        MState.reg_setFlags, MState.read_write, MState.read_mod, MState.reg_mod,
        MState.reg_mod_lit, MState.read_mod_lit, shiftResult_mod, P64_bits, *]
  · cases src2X with
    | register r2 =>
      have hr2RC : r2 ≠ XReg.RC := fun h => hsave (by rw [h])
      have hr2T : r2 ≠ TEMP := fun h => h2T (by rw [h])
      have hRCr2 : XReg.RC ≠ r2 := Ne.symm hr2RC
      have hTr2 : TEMP ≠ r2 := Ne.symm hr2T
      cases src1X with
      | register r1 =>
        have hr1RC : r1 ≠ XReg.RC := fun h => h1RC (by rw [h])
        have hr1T : r1 ≠ TEMP := fun h => h1T (by rw [h])
        have hRCr1 : XReg.RC ≠ r1 := Ne.symm hr1RC
        have hTr1 : TEMP ≠ r1 := Ne.symm hr1T
        by_cases hd1 : destX = r1
        · subst hd1
          simp [shiftBinary, srcToRegister, loadSlot, slotAddress, lowMove, execInstrs,
            stepInstr, readX, MState.reg_write_self, MState.reg_write_other,
            MState.reg_setFlags, MState.read_write, MState.read_mod, MState.reg_mod,
            MState.reg_mod_lit, MState.read_mod_lit, shiftResult_mod, P64_bits, *]
        · simp [shiftBinary, srcToRegister, loadSlot, slotAddress, lowMove, execInstrs,
            stepInstr, readX, MState.reg_write_self, MState.reg_write_other,
            MState.reg_setFlags, MState.read_write, MState.read_mod, MState.reg_mod,
            MState.reg_mod_lit, MState.read_mod_lit, shiftResult_mod, P64_bits, *]
      | slot sl1 =>
        simp [shiftBinary, srcToRegister, loadSlot, slotAddress, lowMove, execInstrs,
          stepInstr, readX, MState.reg_write_self, MState.reg_write_other,
          MState.reg_setFlags, MState.read_write, MState.read_mod, MState.reg_mod,
          MState.reg_mod_lit, MState.read_mod_lit, shiftResult_mod, P64_bits, *]
    | slot sl2 =>
      cases src1X with
      | register r1 =>
        have hr1RC : r1 ≠ XReg.RC := fun h => h1RC (by rw [h])
        have hr1T : r1 ≠ TEMP := fun h => h1T (by rw [h])
        have hRCr1 : XReg.RC ≠ r1 := Ne.symm hr1RC
        have hTr1 : TEMP ≠ r1 := Ne.symm hr1T
        by_cases hd1 : destX = r1
        · subst hd1
          simp [shiftBinary, srcToRegister, loadSlot, slotAddress, lowMove, execInstrs,
            stepInstr, readX, MState.reg_write_self, MState.reg_write_other,
            MState.reg_setFlags, MState.read_write, MState.read_mod, MState.reg_mod,
            MState.reg_mod_lit, MState.read_mod_lit, shiftResult_mod, P64_bits, *]
        · simp [shiftBinary, srcToRegister, loadSlot, slotAddress, lowMove, execInstrs,
            stepInstr, readX, MState.reg_write_self, MState.reg_write_other,
            MState.reg_setFlags, MState.read_write, MState.read_mod, MState.reg_mod,
            MState.reg_mod_lit, MState.read_mod_lit, shiftResult_mod, P64_bits, *]
      | slot sl1 =>
        simp [shiftBinary, srcToRegister, loadSlot, slotAddress, lowMove, execInstrs,
          stepInstr, readX, MState.reg_write_self, MState.reg_write_other,
          MState.reg_setFlags, MState.read_write, MState.read_mod, MState.reg_mod,
          MState.reg_mod_lit, MState.read_mod_lit, shiftResult_mod, P64_bits, *]

theorem reachF_self (g : Dataflow) (f a : Nat) : reachF g f a a = true := by
  cases f <;> simp [reachF]

theorem reachF_mono (g : Dataflow) :
    ∀ f f' a b, f ≤ f' → reachF g f a b = true → reachF g f' a b = true := by
  intro f
  induction f with
  | zero =>
    intro f' a b _ h
    simp only [reachF, beq_iff_eq] at h
    subst h
    exact reachF_self g f' a
  | succ k ih =>
    intro f' a b hle h
    cases f' with
    | zero => omega
    | succ k' =>
      simp only [reachF, Bool.or_eq_true, beq_iff_eq, List.any_eq_true,
        Bool.and_eq_true, decide_eq_true_eq] at h ⊢
      rcases h with h | ⟨d, hd, hlt, hr⟩
      · exact Or.inl h
      · exact Or.inr ⟨d, hd, hlt, ih k' d b (by omega) hr⟩

theorem list_any_congr {l : List Nat} {f h : Nat → Bool}
    (H : ∀ x ∈ l, f x = h x) : l.any f = l.any h := by
  induction l with
  | nil => rfl
  | cons x xs ih =>
    simp only [List.any_cons]
    rw [H x (List.mem_cons_self x xs), ih fun y hy => H y (List.mem_cons_of_mem x hy)]

theorem depsAt_append_lt (g l : Dataflow) (i : Nat) (h : i < g.length) :
    depsAt (g ++ l) i = depsAt g i := by
  simp [depsAt, List.getElem?_append_left h]

theorem opAt_append_lt (g l : Dataflow) (i : Nat) (h : i < g.length) :
    opAt (g ++ l) i = opAt g i := by
  simp [opAt, List.getElem?_append_left h]

theorem opAt_append_self (g : Dataflow) (nd : NodeData) :
    opAt (g ++ [nd]) g.length = some nd.op := by
  simp [opAt, List.get?_concat_length]

theorem depsAt_append_self (g : Dataflow) (nd : NodeData) :
    depsAt (g ++ [nd]) g.length = nd.deps := by
  simp [depsAt, List.get?_concat_length]

theorem opAt_lt (g : Dataflow) (i : Nat) (o : Op) (h : opAt g i = some o) :
    i < g.length := by
  simp only [opAt, Option.map_eq_some'] at h
  obtain ⟨nd, hnd, -⟩ := h
  exact (List.get?_eq_some.mp hnd).1

theorem isStoreAt_append_lt (g l : Dataflow) (i : Nat) (h : i < g.length) :
    isStoreAt (g ++ l) i = isStoreAt g i := by
  simp [isStoreAt, opAt_append_lt g l i h]

theorem isLoadAt_append_lt (g l : Dataflow) (i : Nat) (h : i < g.length) :
    isLoadAt (g ++ l) i = isLoadAt g i := by
  simp [isLoadAt, opAt_append_lt g l i h]

theorem isStoreAt_lt (g : Dataflow) (i : Nat) (h : isStoreAt g i = true) :
    i < g.length := by
  unfold isStoreAt at h
  cases ho : opAt g i with
  | none => rw [ho] at h; simp at h
  | some o => exact opAt_lt g i o ho

theorem isLoadAt_lt (g : Dataflow) (i : Nat) (h : isLoadAt g i = true) :
    i < g.length := by
  unfold isLoadAt at h
  cases ho : opAt g i with
  | none => rw [ho] at h; simp at h
  | some o => exact opAt_lt g i o ho

theorem reachF_append (g l : Dataflow) (b : Nat) :
    ∀ f a, a < g.length → reachF (g ++ l) f a b = reachF g f a b := by
  intro f
  induction f with
  | zero => intro a _; rfl
  | succ k ih =>
    intro a ha
    simp only [reachF, depsAt_append_lt g l a ha]
    congr 1
    apply list_any_congr
    intro d _
    by_cases hda : d < a
    · simp only [hda, decide_True]
      rw [ih d (lt_trans hda ha)]
    · simp [hda]

theorem reach_self (g : Dataflow) (a : Nat) : reach g a a = true := reachF_self g a a

theorem reach_of_dep (g : Dataflow) (a d b : Nat)
    (hd : d ∈ depsAt g a) (hlt : d < a) (h : reach g d b = true) :
    reach g a b = true := by
  have h1 : reachF g (a - 1) d b = true := reachF_mono g d (a - 1) d b (by omega) h
  have h2 : reachF g a a b = true := by
    have ha : a = (a - 1) + 1 := by omega
    rw [ha]
    simp only [reachF, Bool.or_eq_true, List.any_eq_true, Bool.and_eq_true,
      decide_eq_true_eq]
    refine Or.inr ⟨d, ?_, by omega, h1⟩
    rw [← ha]
    exact hd
  exact h2

theorem reach_append (g l : Dataflow) (a b : Nat) (ha : a < g.length) :
    reach (g ++ l) a b = reach g a b := reachF_append g l b a a ha

theorem find?_congr {l : List Nat} {P Q : Nat → Bool}
    (H : ∀ x ∈ l, P x = Q x) : l.find? P = l.find? Q := by
  induction l with
  | nil => rfl
  | cons x xs ih =>
    simp only [List.find?]
    rw [H x (List.mem_cons_self x xs)]
    cases Q x with
    | true => rfl
    | false => exact ih fun y hy => H y (List.mem_cons_of_mem x hy)

theorem range_reverse_succ (j : Nat) :
    (List.range (j + 1)).reverse = j :: (List.range j).reverse := by
  rw [List.range_succ, List.reverse_append]
  rfl

theorem findLargest_eq {P : Nat → Bool} :
    ∀ {j i0 : Nat}, i0 < j → P i0 = true → (∀ i, i0 < i → i < j → P i = false) →
    (List.range j).reverse.find? P = some i0 := by
  intro j
  induction j with
  | zero => intro i0 h; omega
  | succ k ih =>
    intro i0 hi0 hP hafter
    rw [range_reverse_succ, List.find?]
    by_cases hik : i0 = k
    · subst hik
      rw [hP]
    · have hk : P k = false := hafter k (by omega) (by omega)
      rw [hk]
      exact ih (by omega) hP fun i h1 h2 => hafter i h1 (by omega)

theorem findLargest_none {P : Nat → Bool} :
    ∀ {j : Nat}, (∀ i, i < j → P i = false) → (List.range j).reverse.find? P = none := by
  intro j
  induction j with
  | zero => intro _; rfl
  | succ k ih =>
    intro hall
    rw [range_reverse_succ, List.find?, hall k (by omega)]
    exact ih fun i hi => hall i (by omega)

theorem findLargest_mem {P : Nat → Bool} {j i : Nat}
    (h : (List.range j).reverse.find? P = some i) : i < j ∧ P i = true := by
  have h1 := List.find?_some h
  have h2 := List.mem_of_find?_eq_some h
  rw [List.mem_reverse, List.mem_range] at h2
  exact ⟨h2, h1⟩

theorem depsAt_out (g : Dataflow) (j : Nat) (h : g.length ≤ j) : depsAt g j = [] := by
  simp [depsAt, List.getElem?_eq_none h]

theorem isStoreAt_out (g : Dataflow) (j : Nat) (h : g.length ≤ j) :
    isStoreAt g j = false := by
  simp [isStoreAt, opAt, List.getElem?_eq_none h]

theorem isLoadAt_out (g : Dataflow) (j : Nat) (h : g.length ≤ j) :
    isLoadAt g j = false := by
  simp [isLoadAt, opAt, List.getElem?_eq_none h]

theorem lastStoreBefore_stable (g l : Dataflow) (j : Nat) (h : j ≤ g.length) :
    lastStoreBefore (g ++ l) j = lastStoreBefore g j := by
  have h2 : (List.range j).reverse.find? (fun i => isStoreAt (g ++ l) i)
      = (List.range j).reverse.find? (fun i => isStoreAt g i) :=
    find?_congr fun x hx => by
      rw [List.mem_reverse, List.mem_range] at hx
      exact isStoreAt_append_lt g l x (lt_of_lt_of_le hx h)
  unfold lastStoreBefore
  rw [h2]

theorem simInv_of_plain (s s2 : Simulation) (inv : SimInv s) (nd : NodeData)
    (hg : s2.dataflow = s.dataflow ++ [nd])
    (hst : s2.store = s.store) (hld : s2.loads = s.loads)
    (hstk : s2.stack = s.stack ∨ s2.stack = s.dataflow.length)
    (hns : ∀ w m, nd.op ≠ Op.store w m)
    (hnl : ∀ w m, nd.op ≠ Op.load w m)
    (hdeps : ∀ d ∈ nd.deps, d < s.dataflow.length) :
    SimInv s2 := by
  have hlen0 : 0 < s.dataflow.length := opAt_lt _ _ _ inv.entryConv
  have hlen : s2.dataflow.length = s.dataflow.length + 1 := by rw [hg]; simp
  have hns' : isStoreAt s2.dataflow s.dataflow.length = false := by
    rw [hg]
    unfold isStoreAt
    rw [opAt_append_self]
    cases ho : nd.op
    case store w m => exact absurd ho (hns w m)
    all_goals rfl
  have hnl' : isLoadAt s2.dataflow s.dataflow.length = false := by
    rw [hg]
    unfold isLoadAt
    rw [opAt_append_self]
    cases ho : nd.op
    case load w m => exact absurd ho (hnl w m)
    all_goals rfl
  refine ⟨?_, ?_, ?_, ?_, ?_, ?_, ?_, ?_, ?_, ?_, ?_, ?_⟩
  · -- wf
    intro j d hd
    rcases Nat.lt_trichotomy j s.dataflow.length with hj | rfl | hj
    · rw [hg, depsAt_append_lt _ _ _ hj] at hd
      exact inv.wf j d hd
    · rw [hg, depsAt_append_self] at hd
      exact hdeps d hd
    · rw [hg, depsAt_out _ _ (by simp; omega)] at hd
      cases hd
  · -- entryConv
    rw [hg, opAt_append_lt _ _ _ hlen0]
    exact inv.entryConv
  · -- storeLt
    rw [hst, hlen]
    have := inv.storeLt
    omega
  · -- storeIs
    rw [hst]
    rcases inv.storeIs with h0 | hS
    · exact Or.inl h0
    · refine Or.inr ?_
      rw [hg, isStoreAt_append_lt _ _ _ inv.storeLt]
      exact hS
  · -- stackLt
    rcases hstk with h | h <;> rw [h, hlen]
    · exact lt_trans inv.stackLt (by omega)
    · omega
  · -- storeMem
    rw [hst, hld]
    exact inv.storeMem
  · -- loadsLt
    intro l hl
    rw [hld] at hl
    rw [hlen]
    exact lt_trans (inv.loadsLt l hl) (by omega)
  · -- noStoreAfter
    intro i hi
    rw [hst] at hi
    rcases Nat.lt_trichotomy i s.dataflow.length with h | rfl | h
    · rw [hg, isStoreAt_append_lt _ _ _ h]
      exact inv.noStoreAfter i hi
    · exact hns'
    · rw [hg, isStoreAt_out _ _ (by simp; omega)]
  · -- reachStores
    intro i hi hio
    rw [hlen] at hi
    rw [hst]
    rcases Nat.lt_succ_iff_lt_or_eq.mp hi with hi | rfl
    · have hio2 : i = 0 ∨ isStoreAt s.dataflow i = true := by
        rcases hio with h | h
        · exact Or.inl h
        · rw [hg, isStoreAt_append_lt _ _ _ hi] at h
          exact Or.inr h
      rw [hg, reach_append _ _ _ _ inv.storeLt]
      exact inv.reachStores i hi hio2
    · rcases hio with h | h
      · omega
      · rw [hns'] at h
        cases h
  · -- loadsMem
    intro l h0 hl
    have hllen : l < s.dataflow.length + 1 := by
      have := isLoadAt_lt _ _ hl
      omega
    rcases Nat.lt_succ_iff_lt_or_eq.mp hllen with hllt | rfl
    · rw [hg, isLoadAt_append_lt _ _ _ hllt] at hl
      rw [hld]
      rw [hst] at h0
      exact inv.loadsMem l h0 hl
    · rw [hnl'] at hl
      cases hl
  · -- claimA
    intro j hj i hij hio
    have hjlen : j < s.dataflow.length + 1 := by
      have := isLoadAt_lt _ _ hj
      omega
    rcases Nat.lt_succ_iff_lt_or_eq.mp hjlen with hjlt | rfl
    · have hj2 : isLoadAt s.dataflow j = true := by
        rw [hg, isLoadAt_append_lt _ _ _ hjlt] at hj
        exact hj
      have hio2 : i = 0 ∨ isStoreAt s.dataflow i = true := by
        rcases hio with h | h
        · exact Or.inl h
        · rw [hg, isStoreAt_append_lt _ _ _ (lt_trans hij hjlt)] at h
          exact Or.inr h
      rw [hg, reach_append _ _ _ _ hjlt]
      exact inv.claimA j hj2 i hij hio2
    · rw [hnl'] at hj
      cases hj
  · -- claimB
    intro j w m hop l hlj hload hlast
    have hjlen : j < s.dataflow.length + 1 := by
      have := opAt_lt _ _ _ hop
      omega
    rcases Nat.lt_succ_iff_lt_or_eq.mp hjlen with hjlt | rfl
    · have hop2 : opAt s.dataflow j = some (Op.store w m) := by
        rw [hg, opAt_append_lt _ _ _ hjlt] at hop
        exact hop
      have hload2 : isLoadAt s.dataflow l = true := by
        rw [hg, isLoadAt_append_lt _ _ _ (lt_trans hlj hjlt)] at hload
        exact hload
      have hlast2 : lastStoreBefore s.dataflow j < l := by
        rw [hg, lastStoreBefore_stable _ _ _ (le_of_lt hjlt)] at hlast
        exact hlast
      rw [hg, depsAt_append_lt _ _ _ hjlt]
      exact inv.claimB j w m hop2 l hlj hload2 hlast2
    · rw [hg, opAt_append_self] at hop
      exact absurd (Option.some.inj hop) (hns w m)

theorem simInv_of_load (s s2 : Simulation)
    (inv : SimInv s) (w : Width) (m : AliasMask) (io : List Out) (k : Nat)
    (hg : s2.dataflow = s.dataflow ++ [⟨Op.load w m, [s.store], io, k⟩])
    (hst : s2.store = s.store)
    (hld : s2.loads = s.loads ++ [s.dataflow.length])
    (hstk : s2.stack = s.stack) :
    SimInv s2 := by
  have hlen0 : 0 < s.dataflow.length := opAt_lt _ _ _ inv.entryConv
  have hlen : s2.dataflow.length = s.dataflow.length + 1 := by rw [hg]; simp
  have hself : opAt s2.dataflow s.dataflow.length = some (Op.load w m) := by
    rw [hg, opAt_append_self]
  have hns' : isStoreAt s2.dataflow s.dataflow.length = false := by
    unfold isStoreAt
    rw [hself]
  have hnl' : isLoadAt s2.dataflow s.dataflow.length = true := by
    unfold isLoadAt
    rw [hself]
  refine ⟨?_, ?_, ?_, ?_, ?_, ?_, ?_, ?_, ?_, ?_, ?_, ?_⟩
  · -- wf
    intro j d hd
    rcases Nat.lt_trichotomy j s.dataflow.length with hj | rfl | hj
    · rw [hg, depsAt_append_lt _ _ _ hj] at hd
      exact inv.wf j d hd
    · rw [hg, depsAt_append_self] at hd
      have : d = s.store := by simpa using hd
      subst this
      exact inv.storeLt
    · rw [hg, depsAt_out _ _ (by simp; omega)] at hd
      cases hd
  · -- entryConv
    rw [hg, opAt_append_lt _ _ _ hlen0]
    exact inv.entryConv
  · -- storeLt
    rw [hst, hlen]
    have := inv.storeLt
    omega
  · -- storeIs
    rw [hst]
    rcases inv.storeIs with h0 | hS
    · exact Or.inl h0
    · refine Or.inr ?_
      rw [hg, isStoreAt_append_lt _ _ _ inv.storeLt]
      exact hS
  · -- stackLt
    rw [hstk, hlen]
    exact lt_trans inv.stackLt (by omega)
  · -- storeMem
    rw [hst, hld]
    exact List.mem_append_left _ inv.storeMem
  · -- loadsLt
    intro l hl
    rw [hld] at hl
    rw [hlen]
    rcases List.mem_append.mp hl with h | h
    · exact lt_trans (inv.loadsLt l h) (by omega)
    · have : l = s.dataflow.length := by simpa using h
      omega
  · -- noStoreAfter
    intro i hi
    rw [hst] at hi
    rcases Nat.lt_trichotomy i s.dataflow.length with h | rfl | h
    · rw [hg, isStoreAt_append_lt _ _ _ h]
      exact inv.noStoreAfter i hi
    · exact hns'
    · rw [hg, isStoreAt_out _ _ (by simp; omega)]
  · -- reachStores
    intro i hi hio
    rw [hlen] at hi
    rw [hst]
    rcases Nat.lt_succ_iff_lt_or_eq.mp hi with hi | rfl
    · have hio2 : i = 0 ∨ isStoreAt s.dataflow i = true := by
        rcases hio with h | h
        · exact Or.inl h
        · rw [hg, isStoreAt_append_lt _ _ _ hi] at h
          exact Or.inr h
      rw [hg, reach_append _ _ _ _ inv.storeLt]
      exact inv.reachStores i hi hio2
    · rcases hio with h | h
      · omega
      · rw [hns'] at h
        cases h
  · -- loadsMem
    intro l h0 hl
    have hllen : l < s.dataflow.length + 1 := by
      have := isLoadAt_lt _ _ hl
      omega
    rw [hld]
    rcases Nat.lt_succ_iff_lt_or_eq.mp hllen with hllt | rfl
    · rw [hg, isLoadAt_append_lt _ _ _ hllt] at hl
      rw [hst] at h0
      exact List.mem_append_left _ (inv.loadsMem l h0 hl)
    · exact List.mem_append_right _ (by simp)
  · -- claimA
    intro j hj i hij hio
    have hjlen : j < s.dataflow.length + 1 := by
      have := isLoadAt_lt _ _ hj
      omega
    rcases Nat.lt_succ_iff_lt_or_eq.mp hjlen with hjlt | rfl
    · have hj2 : isLoadAt s.dataflow j = true := by
        rw [hg, isLoadAt_append_lt _ _ _ hjlt] at hj
        exact hj
      have hio2 : i = 0 ∨ isStoreAt s.dataflow i = true := by
        rcases hio with h | h
        · exact Or.inl h
        · rw [hg, isStoreAt_append_lt _ _ _ (lt_trans hij hjlt)] at h
          exact Or.inr h
      rw [hg, reach_append _ _ _ _ hjlt]
      exact inv.claimA j hj2 i hij hio2
    · -- the new load node: reach via its dep on the current store
      have hio2 : i = 0 ∨ isStoreAt s.dataflow i = true := by
        rcases hio with h | h
        · exact Or.inl h
        · rw [hg, isStoreAt_append_lt _ _ _ hij] at h
          exact Or.inr h
      have hdep : s.store ∈ depsAt s2.dataflow s.dataflow.length := by
        rw [hg, depsAt_append_self]
        simp
      have hreach : reach s2.dataflow s.store i = true := by
        rw [hg, reach_append _ _ _ _ inv.storeLt]
        exact inv.reachStores i hij hio2
      exact reach_of_dep _ _ _ _ hdep inv.storeLt hreach
  · -- claimB
    intro j w2 m2 hop l hlj hload hlast
    have hjlen : j < s.dataflow.length + 1 := by
      have := opAt_lt _ _ _ hop
      omega
    rcases Nat.lt_succ_iff_lt_or_eq.mp hjlen with hjlt | rfl
    · have hop2 : opAt s.dataflow j = some (Op.store w2 m2) := by
        rw [hg, opAt_append_lt _ _ _ hjlt] at hop
        exact hop
      have hload2 : isLoadAt s.dataflow l = true := by
        rw [hg, isLoadAt_append_lt _ _ _ (lt_trans hlj hjlt)] at hload
        exact hload
      have hlast2 : lastStoreBefore s.dataflow j < l := by
        rw [hg, lastStoreBefore_stable _ _ _ (le_of_lt hjlt)] at hlast
        exact hlast
      rw [hg, depsAt_append_lt _ _ _ hjlt]
      exact inv.claimB j w2 m2 hop2 l hlj hload2 hlast2
    · rw [hself] at hop
      cases Option.some.inj hop

theorem simInv_of_store (s s2 : Simulation)
    (inv : SimInv s) (w : Width) (m : AliasMask) (io : List Out) (k : Nat)
    (hg : s2.dataflow = s.dataflow ++ [⟨Op.store w m, s.loads, io, k⟩])
    (hst : s2.store = s.dataflow.length)
    (hld : s2.loads = [s.dataflow.length])
    (hstk : s2.stack = s.stack) :
    SimInv s2 := by
  have hlen0 : 0 < s.dataflow.length := opAt_lt _ _ _ inv.entryConv
  have hlen : s2.dataflow.length = s.dataflow.length + 1 := by rw [hg]; simp
  have hself : opAt s2.dataflow s.dataflow.length = some (Op.store w m) := by
    rw [hg, opAt_append_self]
  have hs' : isStoreAt s2.dataflow s.dataflow.length = true := by
    unfold isStoreAt
    rw [hself]
  have hnl' : isLoadAt s2.dataflow s.dataflow.length = false := by
    unfold isLoadAt
    rw [hself]
  have hlastnew : lastStoreBefore s2.dataflow s.dataflow.length = s.store := by
    unfold lastStoreBefore
    rcases inv.storeIs with h0 | hS
    · rw [findLargest_none]
      · rw [h0]
        rfl
      · intro i hi
        rw [hg, isStoreAt_append_lt _ _ _ hi]
        rcases Nat.eq_zero_or_pos i with rfl | hipos
        · unfold isStoreAt
          rw [inv.entryConv]
        · refine inv.noStoreAfter i ?_
          omega
    · rw [findLargest_eq inv.storeLt (by
        rw [hg, isStoreAt_append_lt _ _ _ inv.storeLt]
        exact hS)
        (fun i h1 h2 => by
          rw [hg, isStoreAt_append_lt _ _ _ h2]
          exact inv.noStoreAfter i h1)]
      rfl
  refine ⟨?_, ?_, ?_, ?_, ?_, ?_, ?_, ?_, ?_, ?_, ?_, ?_⟩
  · -- wf
    intro j d hd
    rcases Nat.lt_trichotomy j s.dataflow.length with hj | rfl | hj
    · rw [hg, depsAt_append_lt _ _ _ hj] at hd
      exact inv.wf j d hd
    · rw [hg, depsAt_append_self] at hd
      exact inv.loadsLt d hd
    · rw [hg, depsAt_out _ _ (by simp; omega)] at hd
      cases hd
  · -- entryConv
    rw [hg, opAt_append_lt _ _ _ hlen0]
    exact inv.entryConv
  · -- storeLt
    rw [hst, hlen]
    omega
  · -- storeIs
    rw [hst]
    exact Or.inr hs'
  · -- stackLt
    rw [hstk, hlen]
    exact lt_trans inv.stackLt (by omega)
  · -- storeMem
    rw [hst, hld]
    simp
  · -- loadsLt
    intro l hl
    rw [hld] at hl
    have : l = s.dataflow.length := by simpa using hl
    rw [hlen]
    omega
  · -- noStoreAfter
    intro i hi
    rw [hst] at hi
    rw [hg, isStoreAt_out _ _ (by simp; omega)]
  · -- reachStores
    intro i hi hio
    rw [hlen] at hi
    rw [hst]
    rcases Nat.lt_succ_iff_lt_or_eq.mp hi with hi | rfl
    · have hio2 : i = 0 ∨ isStoreAt s.dataflow i = true := by
        rcases hio with h | h
        · exact Or.inl h
        · rw [hg, isStoreAt_append_lt _ _ _ hi] at h
          exact Or.inr h
      have hdep : s.store ∈ depsAt s2.dataflow s.dataflow.length := by
        rw [hg, depsAt_append_self]
        exact inv.storeMem
      have hreach : reach s2.dataflow s.store i = true := by
        rw [hg, reach_append _ _ _ _ inv.storeLt]
        exact inv.reachStores i hi hio2
      exact reach_of_dep _ _ _ _ hdep inv.storeLt hreach
    · exact reach_self _ _
  · -- loadsMem
    intro l h0 hl
    have hllen : l < s.dataflow.length + 1 := by
      have := isLoadAt_lt _ _ hl
      omega
    rw [hst] at h0
    rcases Nat.lt_succ_iff_lt_or_eq.mp hllen with hllt | rfl
    · omega
    · rw [hnl'] at hl
      cases hl
  · -- claimA
    intro j hj i hij hio
    have hjlen : j < s.dataflow.length + 1 := by
      have := isLoadAt_lt _ _ hj
      omega
    rcases Nat.lt_succ_iff_lt_or_eq.mp hjlen with hjlt | rfl
    · have hj2 : isLoadAt s.dataflow j = true := by
        rw [hg, isLoadAt_append_lt _ _ _ hjlt] at hj
        exact hj
      have hio2 : i = 0 ∨ isStoreAt s.dataflow i = true := by
        rcases hio with h | h
        · exact Or.inl h
        · rw [hg, isStoreAt_append_lt _ _ _ (lt_trans hij hjlt)] at h
          exact Or.inr h
      rw [hg, reach_append _ _ _ _ hjlt]
      exact inv.claimA j hj2 i hij hio2
    · rw [hnl'] at hj
      cases hj
  · -- claimB
    intro j w2 m2 hop l hlj hload hlast
    have hjlen : j < s.dataflow.length + 1 := by
      have := opAt_lt _ _ _ hop
      omega
    rcases Nat.lt_succ_iff_lt_or_eq.mp hjlen with hjlt | rfl
    · have hop2 : opAt s.dataflow j = some (Op.store w2 m2) := by
        rw [hg, opAt_append_lt _ _ _ hjlt] at hop
        exact hop
      have hload2 : isLoadAt s.dataflow l = true := by
        rw [hg, isLoadAt_append_lt _ _ _ (lt_trans hlj hjlt)] at hload
        exact hload
      have hlast2 : lastStoreBefore s.dataflow j < l := by
        rw [hg, lastStoreBefore_stable _ _ _ (le_of_lt hjlt)] at hlast
        exact hlast
      rw [hg, depsAt_append_lt _ _ _ hjlt]
      exact inv.claimB j w2 m2 hop2 l hlj hload2 hlast2
    · -- the new store node: its deps are exactly the open loads
      rw [hlastnew] at hlast
      have hload2 : isLoadAt s.dataflow l = true := by
        rw [hg, isLoadAt_append_lt _ _ _ hlj] at hload
        exact hload
      rw [hg, depsAt_append_self]
      exact inv.loadsMem l hlast hload2

theorem simInv_new (inputs : List Value) : SimInv (Simulation.new inputs) := by
  refine ⟨?_, rfl, ?_, Or.inl rfl, ?_, ?_, ?_, ?_, ?_, ?_, ?_, ?_⟩
  · intro j d hd
    match j with
    | 0 => simp [depsAt, Simulation.new, Dataflow.new] at hd
    | j + 1 => simp [depsAt, Simulation.new, Dataflow.new] at hd
  · simp [Simulation.new, Dataflow.new]
  · simp [Simulation.new, Dataflow.new]
  · simp [Simulation.new]
  · intro l hl
    simp only [Simulation.new] at hl
    have : l = 0 := by simpa using hl
    subst this
    simp [Simulation.new, Dataflow.new]
  · intro i hi
    simp only [Simulation.new] at hi
    match i with
    | 0 => omega
    | i + 1 => simp [isStoreAt, opAt, Simulation.new, Dataflow.new]
  · intro i hi _
    simp only [Simulation.new, Dataflow.new, List.length_singleton] at hi
    have : i = 0 := by omega
    subst this
    exact reach_self _ _
  · intro l h0 hl
    have := isLoadAt_lt _ _ hl
    simp only [Simulation.new, Dataflow.new, List.length_singleton] at this
    simp only [Simulation.new] at h0
    omega
  · intro j hj
    have := isLoadAt_lt _ _ hj
    simp only [Simulation.new, Dataflow.new, List.length_singleton] at this
    have hj0 : j = 0 := by omega
    subst hj0
    simp [isLoadAt, opAt, Simulation.new, Dataflow.new] at hj
  · intro j w m hop
    have := opAt_lt _ _ _ hop
    simp only [Simulation.new, Dataflow.new, List.length_singleton] at this
    have hj0 : j = 0 := by omega
    subst hj0
    simp [opAt, Simulation.new, Dataflow.new] at hop

theorem op_some_decomp (s : Simulation) (o : Op) (deps : List Nat) (ins : List Value)
    (outs : List Reg) (pr : Simulation × Nat)
    (h : s.op o deps ins outs = some pr) :
    ∃ io, s.lookupAll ins = some io ∧
      pr.2 = s.dataflow.length ∧
      pr.1.dataflow = s.dataflow ++ [⟨o, deps, io, outs.length⟩] ∧
      pr.1.store = s.store ∧ pr.1.loads = s.loads ∧ pr.1.stack = s.stack := by
  unfold Simulation.op at h
  cases hL : s.lookupAll ins with
  | none => rw [hL] at h; simp at h
  | some io =>
    rw [hL] at h
    simp only [Option.map_some'] at h
    have h2 := Option.some.inj h
    subst h2
    exact ⟨io, rfl, rfl, rfl, rfl, rfl, rfl⟩

theorem moveBinding_decomp (s t : Simulation) (d v : Value)
    (h : s.moveBinding d v = some t) :
    t.dataflow = s.dataflow ∧ t.store = s.store ∧ t.loads = s.loads ∧
      t.stack = s.stack := by
  unfold Simulation.moveBinding at h
  cases hv : s.lookup v with
  | none => rw [hv] at h; simp at h
  | some o =>
    rw [hv] at h
    simp only [Option.map_some'] at h
    have h2 := Option.some.inj h
    subst h2
    exact ⟨rfl, rfl, rfl, rfl⟩

theorem action_preserves (s s2 : Simulation) (a : Action) (inv : SimInv s)
    (h : s.action a = some s2) : SimInv s2 := by
  cases a with
  | move dest src =>
    simp only [Simulation.action] at h
    obtain ⟨hg, hst, hld, hstk⟩ := moveBinding_decomp s s2 dest src h
    exact ⟨by rw [hg]; exact inv.wf, by rw [hg]; exact inv.entryConv,
      by rw [hg, hst]; exact inv.storeLt, by rw [hg, hst]; exact inv.storeIs,
      by rw [hg, hstk]; exact inv.stackLt, by rw [hst, hld]; exact inv.storeMem,
      by rw [hg, hld]; exact inv.loadsLt, by rw [hg, hst]; exact inv.noStoreAfter,
      by rw [hg, hst]; exact inv.reachStores, by rw [hg, hst, hld]; exact inv.loadsMem,
      by rw [hg]; exact inv.claimA, by rw [hg]; exact inv.claimB⟩
  | constant p dest value =>
    simp only [Simulation.action] at h
    cases hop : Simulation.op s
        (Op.constant (if p = Precision.P32 then value % 2 ^ 32 else value)) [] [] [dest] with
    | none => rw [hop] at h; simp at h
    | some pr =>
      rw [hop] at h
      simp only [Option.map_some', Option.some.injEq] at h
      obtain ⟨io, -, -, hg, hst, hld, hstk⟩ := op_some_decomp _ _ _ _ _ _ hop
      subst h
      exact simInv_of_plain s pr.1 inv _ hg hst hld (Or.inl hstk)
        (fun w m => by simp) (fun w m => by simp) (fun d hd => by simp at hd)
  | unary op p dest src =>
    simp only [Simulation.action] at h
    cases hop : Simulation.op s (Op.unary p op) [] [src] [dest] with
    | none => rw [hop] at h; simp at h
    | some pr =>
      rw [hop] at h
      simp only [Option.map_some', Option.some.injEq] at h
      obtain ⟨io, -, -, hg, hst, hld, hstk⟩ := op_some_decomp _ _ _ _ _ _ hop
      subst h
      exact simInv_of_plain s pr.1 inv _ hg hst hld (Or.inl hstk)
        (fun w m => by simp) (fun w m => by simp) (fun d hd => by simp at hd)
  | binary op p dest src1 src2 =>
    simp only [Simulation.action] at h
    cases hop : Simulation.op s (Op.binary p op) [] [src1, src2] [dest] with
    | none => rw [hop] at h; simp at h
    | some pr =>
      rw [hop] at h
      simp only [Option.map_some', Option.some.injEq] at h
      obtain ⟨io, -, -, hg, hst, hld, hstk⟩ := op_some_decomp _ _ _ _ _ _ hop
      subst h
      exact simInv_of_plain s pr.1 inv _ hg hst hld (Or.inl hstk)
        (fun w m => by simp) (fun w m => by simp) (fun d hd => by simp at hd)
  | pop dest =>
    simp only [Simulation.action] at h
    cases hop : Simulation.op s Op.pop [s.stack] [] [dest] with
    | none => rw [hop] at h; simp at h
    | some pr =>
      rw [hop] at h
      simp only [Option.map_some', Option.some.injEq] at h
      obtain ⟨io, -, hn, hg, hst, hld, hstk⟩ := op_some_decomp _ _ _ _ _ _ hop
      subst h
      refine simInv_of_plain s _ inv _ hg hst hld (Or.inr (by simp [hn]))
        (fun w m => by simp) (fun w m => by simp) ?_
      intro d hd
      have : d = s.stack := by simpa using hd
      subst this
      exact inv.stackLt
  | push src =>
    simp only [Simulation.action] at h
    cases hop : Simulation.op s Op.push [s.stack] [src] [] with
    | none => rw [hop] at h; simp at h
    | some pr =>
      rw [hop] at h
      simp only [Option.map_some', Option.some.injEq] at h
      obtain ⟨io, -, hn, hg, hst, hld, hstk⟩ := op_some_decomp _ _ _ _ _ _ hop
      subst h
      refine simInv_of_plain s _ inv _ hg hst hld (Or.inr (by simp [hn]))
        (fun w m => by simp) (fun w m => by simp) ?_
      intro d hd
      have : d = s.stack := by simpa using hd
      subst this
      exact inv.stackLt
  | debug src =>
    simp only [Simulation.action] at h
    cases hop : Simulation.op s Op.push [s.stack] [src] [] with
    | none => rw [hop] at h; simp at h
    | some pr =>
      rw [hop] at h
      simp only [Option.map_some', Option.some.injEq] at h
      obtain ⟨io, -, hn, hg, hst, hld, hstk⟩ := op_some_decomp _ _ _ _ _ _ hop
      subst h
      refine simInv_of_plain s _ inv _ hg hst hld (Or.inr (by simp [hn]))
        (fun w m => by simp) (fun w m => by simp) ?_
      intro d hd
      have : d = s.stack := by simpa using hd
      subst this
      exact inv.stackLt
  | load dest addr w m =>
    simp only [Simulation.action] at h
    cases hop : Simulation.op s (Op.load w m) [s.store] [addr] [dest] with
    | none => rw [hop] at h; simp at h
    | some pr =>
      rw [hop] at h
      simp only [Option.map_some', Option.some.injEq] at h
      obtain ⟨io, -, hn, hg, hst, hld, hstk⟩ := op_some_decomp _ _ _ _ _ _ hop
      subst h
      refine simInv_of_load s _ inv w m io [dest].length ?_ hst ?_ hstk
      · exact hg
      · show pr.1.loads ++ [pr.2] = s.loads ++ [s.dataflow.length]
        rw [hld, hn]
  | store dest src addr w m =>
    simp only [Simulation.action] at h
    cases hop : Simulation.op s (Op.store w m) s.loads [src, addr] [dest] with
    | none => rw [hop] at h; simp at h
    | some pr =>
      rw [hop] at h
      simp only [Option.some_bind] at h
      cases hmv : Simulation.moveBinding pr.1 (Value.register dest) src with
      | none => rw [hmv] at h; simp at h
      | some t =>
        rw [hmv] at h
        simp only [Option.map_some', Option.some.injEq] at h
        obtain ⟨io, -, hn, hg, hst, hld, hstk⟩ := op_some_decomp _ _ _ _ _ _ hop
        obtain ⟨hg2, hst2, hld2, hstk2⟩ := moveBinding_decomp _ _ _ _ hmv
        subst h
        refine simInv_of_store s _ inv w m io [dest].length ?_ ?_ ?_ ?_
        · show t.dataflow = _
          rw [hg2, hg]
        · show pr.2 = s.dataflow.length
          exact hn
        · show [pr.2] = [s.dataflow.length]
          rw [hn]
        · show t.stack = s.stack
          rw [hstk2, hstk]

theorem runActions_preserves (as_ : List Action) :
    ∀ (s s2 : Simulation), SimInv s → runActions s as_ = some s2 → SimInv s2 := by
  induction as_ with
  | nil =>
    intro s s2 inv h
    simp only [runActions] at h
    have := Option.some.inj h
    subst this
    exact inv
  | cons a rest ih =>
    intro s s2 inv h
    simp only [runActions] at h
    cases ha : s.action a with
    | none => rw [ha] at h; simp at h
    | some t =>
      rw [ha] at h
      simp only [Option.some_bind] at h
      exact ih t s2 (action_preserves s t a inv ha) h

theorem mem_dirtyCandidates (s : AllocState) (c : Fin 13 × Option Nat) :
    c ∈ dirtyCandidates s ↔
      ∃ n, s.regs c.1 = some n ∧ s.clean c.1 = false ∧ c.2 = topmost s.usage n := by
  unfold dirtyCandidates
  rw [List.mem_filterMap]
  constructor
  · rintro ⟨x, -, hx⟩
    rcases hreg : s.regs x with - | n
    · rw [hreg] at hx
      simp at hx
    · rcases hc : s.clean x with - | -
      · rw [hreg, hc] at hx
        simp only [Option.some.injEq] at hx
        refine ⟨n, ?_, ?_, ?_⟩
        · rw [← hx]
          exact hreg
        · rw [← hx]
          exact hc
        · rw [← hx]
      · rw [hreg, hc] at hx
        simp at hx
  · rintro ⟨n, hreg, hc, ht⟩
    refine ⟨c.1, List.mem_finRange c.1, ?_⟩
    rw [hreg, hc]
    show some (c.1, topmost s.usage n) = some c
    rw [← ht]

theorem foldmin_spec (rest : List (Fin 13 × Nat)) :
    ∀ (acc : Fin 13 × Nat), rest.Pairwise (fun a b => a.1 < b.1) →
    (∀ c ∈ rest, acc.1 < c.1) →
    (let m := rest.foldl (fun b c2 => if c2.2 < b.2 then c2 else b) acc
    (m = acc ∨ m ∈ rest) ∧ m.2 ≤ acc.2 ∧ (∀ c ∈ rest, m.2 ≤ c.2) ∧
      (acc.2 = m.2 → m = acc) ∧ acc.1 ≤ m.1 ∧
      (∀ c ∈ rest, c.2 = m.2 → m.1 ≤ c.1)) := by
  induction rest with
  | nil =>
    intro acc _ _
    exact ⟨Or.inl rfl, le_refl _, by simp, fun _ => rfl, le_refl _, by simp⟩
  | cons c rest ih =>
    intro acc hpair hacc
    have hpair2 := (List.pairwise_cons.mp hpair).2
    have hc_lt := (List.pairwise_cons.mp hpair).1
    simp only [List.foldl_cons]
    by_cases hlt : c.2 < acc.2
    · rw [if_pos hlt]
      obtain ⟨hmem, hle, hrest, htie, hfst, htierest⟩ := ih c hpair2 hc_lt
      refine ⟨?_, ?_, ?_, ?_, ?_, ?_⟩
      · rcases hmem with h | h
        · refine Or.inr ?_
          rw [h]
          exact List.mem_cons_self c rest
        · exact Or.inr (List.mem_cons_of_mem c h)
      · exact le_trans hle (le_of_lt hlt)
      · intro c2 hc2
        rcases List.mem_cons.mp hc2 with rfl | h
        · exact hle
        · exact hrest c2 h
      · intro hacc2
        exfalso
        have := le_trans hle (le_of_lt hlt)
        omega
      · exact le_trans (le_of_lt (hacc c (List.mem_cons_self c rest))) hfst
      · intro c2 hc2 h2
        rcases List.mem_cons.mp hc2 with rfl | h
        · have h3 := htie h2
          rw [h3]
        · exact htierest c2 h h2
    · rw [if_neg hlt]
      obtain ⟨hmem, hle, hrest, htie, hfst, htierest⟩ := ih acc hpair2
        (fun c2 h2 => hacc c2 (List.mem_cons_of_mem c h2))
      refine ⟨?_, ?_, ?_, ?_, ?_, ?_⟩
      · rcases hmem with h | h
        · exact Or.inl h
        · exact Or.inr (List.mem_cons_of_mem c h)
      · exact hle
      · intro c2 hc2
        rcases List.mem_cons.mp hc2 with rfl | h
        · exact le_trans hle (by omega)
        · exact hrest c2 h
      · exact htie
      · exact hfst
      · intro c2 hc2 h2
        rcases List.mem_cons.mp hc2 with rfl | h
        · -- c2 = c: then m.2 = c.2 and acc.2 <= c.2, m.2 <= acc.2: acc.2 = m.2
          have hacc2 : acc.2 = c2.2 := by omega
          have h3 := htie (by omega)
          rw [h3]
          exact le_of_lt (hacc c2 (List.mem_cons_self c2 rest))
        · exact htierest c2 h h2

theorem argminKey_spec (l : List (Fin 13 × Nat))
    (hl : l.Pairwise (fun a b => a.1 < b.1)) (r : Fin 13)
    (h : argminKey l = some r) :
    ∃ t, (r, t) ∈ l ∧ (∀ c ∈ l, t ≤ c.2) ∧ ∀ c ∈ l, c.2 = t → r ≤ c.1 := by
  cases l with
  | nil => cases h
  | cons c rest =>
    simp only [argminKey, Option.some.injEq] at h
    have hpair2 := (List.pairwise_cons.mp hl).2
    have hc_lt := (List.pairwise_cons.mp hl).1
    obtain ⟨hmem, hle, hrest, htie, hfst, htierest⟩ := foldmin_spec rest c hpair2 hc_lt
    set m := rest.foldl (fun b c2 => if c2.2 < b.2 then c2 else b) c with hm
    refine ⟨m.2, ?_, ?_, ?_⟩
    · rw [← h]
      rcases hmem with h2 | h2
      · rw [h2]
        exact List.mem_cons_self c rest
      · exact List.mem_cons_of_mem c h2
    · intro c2 hc2
      rcases List.mem_cons.mp hc2 with rfl | h2
      · exact hle
      · exact hrest c2 h2
    · intro c2 hc2 h2
      rw [← h]
      rcases List.mem_cons.mp hc2 with rfl | h3
      · have h4 := htie h2
        rw [h4]
      · exact htierest c2 h3 h2

theorem pairwise_fst_filterMap {β : Type} (l : List (Fin 13))
    (hl : l.Pairwise (· < ·)) (f : Fin 13 → Option (Fin 13 × β))
    (hf : ∀ a p, f a = some p → p.1 = a) :
    (l.filterMap f).Pairwise fun a b => a.1 < b.1 := by
  induction l with
  | nil => exact List.Pairwise.nil
  | cons x rest ih =>
    have hpair2 := (List.pairwise_cons.mp hl).2
    have hx_lt := (List.pairwise_cons.mp hl).1
    rw [List.filterMap_cons]
    cases hfx : f x with
    | none => exact ih hpair2
    | some p =>
      refine List.Pairwise.cons ?_ (ih hpair2)
      intro q hq
      rw [List.mem_filterMap] at hq
      obtain ⟨b, hb, hfb⟩ := hq
      rw [hf x p hfx, hf b q hfb]
      exact hx_lt b hb



theorem freeARegister_spec (s : AllocState) (r : Fin 13) (t : AllocState)
    (h : freeARegister s = some (r, t)) :
    t = freeReg s r ∧ s.clean r = false ∧
    ∃ n u, s.regs r = some n ∧ topmost s.usage n = some u ∧
      ∀ r2 n2 u2, s.clean r2 = false → s.regs r2 = some n2 →
        topmost s.usage n2 = some u2 → u ≤ u2 ∧ (u2 = u → r ≤ r2) := by
  unfold freeARegister at h
  by_cases hemp : (dirtyCandidates s).isEmpty
  · rw [if_pos hemp] at h
    cases h
  · rw [if_neg hemp] at h
    by_cases hany : (dirtyCandidates s).any fun c => c.2.isNone
    · rw [if_pos hany] at h
      cases h
    · rw [if_neg hany] at h
      cases hmin : argminKey ((dirtyCandidates s).filterMap
          fun c => c.2.map fun u => (c.1, u)) with
      | none => rw [hmin] at h; cases h
      | some r2 =>
        rw [hmin] at h
        simp only [Option.map_some', Option.some.injEq, Prod.mk.injEq] at h
        obtain ⟨rfl, ht⟩ := h
        -- pairwise of the keyed list
        have hpair : ((dirtyCandidates s).filterMap
            fun c => c.2.map fun u => (c.1, u)).Pairwise (fun a b => a.1 < b.1) := by
          unfold dirtyCandidates
          rw [List.filterMap_filterMap]
          refine pairwise_fst_filterMap _ (List.pairwise_lt_finRange 13) _ ?_
          intro a p hp
          rcases hreg : s.regs a with - | n
          · rw [hreg] at hp
            simp at hp
          · rcases hc : s.clean a with - | -
            · rw [hreg, hc] at hp
              simp only [Option.some_bind] at hp
              cases hu : topmost s.usage n with
              | none => rw [hu] at hp; cases hp
              | some u =>
                rw [hu] at hp
                simp only [Option.map_some', Option.some.injEq] at hp
                rw [← hp]
            · rw [hreg, hc] at hp
              simp at hp
        obtain ⟨u, humem, humin, hutie⟩ := argminKey_spec _ hpair r2 hmin
        -- unpack membership of (r, u) in the keyed list
        rw [List.mem_filterMap] at humem
        obtain ⟨c, hcmem, hcval⟩ := humem
        cases hct : c.2 with
        | none => rw [hct] at hcval; cases hcval
        | some u0 =>
          rw [hct] at hcval
          simp only [Option.map_some', Option.some.injEq, Prod.mk.injEq] at hcval
          obtain ⟨hc1, rfl⟩ := hcval
          obtain ⟨n, hnreg, hnclean, hntop⟩ := (mem_dirtyCandidates s c).mp hcmem
          refine ⟨ht.symm, by rw [← hc1]; exact hnclean, n, u0, by rw [← hc1]; exact hnreg,
            by rw [← hntop]; exact hct, ?_⟩
          intro r2 n2 u2 hcl2 hreg2 htop2
          have hc2mem : ((r2, some u2) : Fin 13 × Option Nat) ∈ dirtyCandidates s := by
            rw [mem_dirtyCandidates]
            exact ⟨n2, hreg2, hcl2, htop2.symm⟩
          have hkeyed : ((r2, u2) : Fin 13 × Nat) ∈
              (dirtyCandidates s).filterMap fun c => c.2.map fun u => (c.1, u) := by
            rw [List.mem_filterMap]
            exact ⟨(r2, some u2), hc2mem, rfl⟩
          exact ⟨humin _ hkeyed, fun he => hutie _ hkeyed he⟩

theorem spillStep_spec (s s2 : AllocState) (h : spillStep s = some s2) :
    ∃ rx ry ox oy,
      freeARegister s = some (rx, freeReg s rx) ∧
      freeARegister (freeReg s rx) = some (ry, freeReg (freeReg s rx) ry) ∧
      s.regs rx = some ox ∧ s.regs ry = some oy ∧
      s2.emitted = s.emitted ++ [AInstr.spill ox oy] ∧
      s2.clean rx = true ∧ s2.clean ry = true ∧
      s2.regs = s.regs ∧ s2.usage = s.usage ∧ s2.allocation = s.allocation := by
  unfold spillStep at h
  cases h1 : freeARegister s with
  | none => rw [h1] at h; cases h
  | some p1 =>
    rw [h1] at h
    simp only [Option.some_bind] at h
    obtain ⟨ht1, -, -⟩ := freeARegister_spec s p1.1 p1.2 (by rw [h1])
    cases h2 : freeARegister p1.2 with
    | none => rw [h2] at h; cases h
    | some p2 =>
      rw [h2] at h
      simp only [Option.some_bind] at h
      obtain ⟨ht2, -, -⟩ := freeARegister_spec p1.2 p2.1 p2.2 (by rw [h2])
      cases hox : p1.2.regs p1.1 with
      | none => rw [hox] at h; cases h
      | some ox =>
        rw [hox] at h
        simp only [Option.some_bind] at h
        cases hoy : p2.2.regs p2.1 with
        | none => rw [hoy] at h; cases h
        | some oy =>
          rw [hoy] at h
          simp only [Option.map_some', Option.some.injEq] at h
          subst h
          have hregs1 : p1.2.regs = s.regs := by rw [ht1]; rfl
          have hregs2 : p2.2.regs = s.regs := by rw [ht2, ht1]; rfl
          refine ⟨p1.1, p2.1, ox, oy, ?_, ?_, ?_, ?_, ?_, ?_, ?_, ?_, ?_, ?_⟩
          · exact congrArg some (Prod.ext rfl ht1)
          · show freeARegister (freeReg s p1.1) = some (p2.1, freeReg (freeReg s p1.1) p2.1)
            rw [← ht1]
            exact h2.trans (congrArg some (Prod.ext rfl ht2))
          · rw [← hregs1]
            exact hox
          · rw [← hregs2]
            exact hoy
          · show p2.2.emitted ++ [AInstr.spill ox oy] = s.emitted ++ [AInstr.spill ox oy]
            rw [ht2, ht1]
            rfl
          · show p2.2.clean p1.1 = true
            rw [ht2, ht1]
            show (if p1.1 = p2.1 then true else if p1.1 = p1.1 then true else s.clean p1.1) = true
            by_cases he : p1.1 = p2.1 <;> simp [he]
          · show p2.2.clean p2.1 = true
            rw [ht2]
            simp [freeReg]
          · show p2.2.regs = s.regs
            exact hregs2
          · show p2.2.usage = s.usage
            rw [ht2, ht1]
            rfl
          · show p2.2.allocation = s.allocation
            rw [ht2, ht1]
            rfl

theorem spillUntilF_clean (f : Nat) :
    ∀ (k : Nat) (s s2 : AllocState), spillUntilF f k s = some s2 → k ≤ numClean s2 := by
  induction f with
  | zero =>
    intro k s s2 h
    unfold spillUntilF at h
    by_cases hk : k ≤ numClean s
    · rw [if_pos hk] at h
      have := Option.some.inj h
      subst this
      exact hk
    · rw [if_neg hk] at h
      cases h
  | succ f ih =>
    intro k s s2 h
    unfold spillUntilF at h
    by_cases hk : k ≤ numClean s
    · rw [if_pos hk] at h
      have := Option.some.inj h
      subst this
      exact hk
    · rw [if_neg hk] at h
      cases hs : spillStep s with
      | none => rw [hs] at h; cases h
      | some t =>
        rw [hs] at h
        simp only [Option.some_bind] at h
        exact ih k t s2 h

theorem spillUntilF_noop (f k : Nat) (s : AllocState) (h : k ≤ numClean s) :
    spillUntilF f k s = some s := by
  cases f <;> simp [spillUntilF, h]

/-! ## The claims -/

/-- Claim C8: in the reference Beetle machine, `get_code(State::Ploopm)`
returns a transition list identical to `get_code(State::Ploopp)`: the
`lt(LoopFlag, 0)` branches run the same actions and go to `State::Root`,
and the `ge(LoopFlag, 0)` branches go to the same cold state
`State::Branch`. -/
theorem beetle_ploopm_equals_ploopp :
    getCode_Ploopm = getCode_Ploopp ∧
    getCode_Ploopp.map Case.newState = [BState.root, BState.branch] ∧
    getCode_Ploopm.map Case.newState = [BState.root, BState.branch] ∧
    getCode_Ploopp.map Case.condition =
      [(TestOp.lt Global.loopFlag.val 0, Precision.P32),
       (TestOp.ge Global.loopFlag.val 0, Precision.P32)] ∧
    getCode_Ploopm.map Case.actions = getCode_Ploopp.map Case.actions :=
  ⟨rfl, rfl, rfl, rfl, rfl⟩

/-- Claim C10: lowering the guard `(TestOp::Always, p)` emits no
instructions and pushes nothing onto `false_label`'s patch list; every
other `TestOp` variant ends in a compare followed by a conditional branch,
and pushes exactly one patch. -/
theorem lower_test_op_shape :
    (∀ p, lowerTestOp TestOp.always p = []) ∧
    (∀ t p, countJumps (lowerTestOp t p) = if t = TestOp.always then 0 else 1) ∧
    (∀ t p, t ≠ TestOp.always →
      ∃ pre r imm cc, lowerTestOp t p =
        pre ++ [Instr.constOp ABinOp.cmp p r imm, Instr.jumpIf cc false] ∧
        countJumps pre = 0) := by
  refine ⟨fun p => rfl, fun t p => ?_, fun t p ht => ?_⟩
  · cases t with
    | bits v m c => cases v <;> rfl
    | lt v c => cases v <;> rfl
    | ge v c => cases v <;> rfl
    | ult v c => cases v <;> rfl
    | uge v c => cases v <;> rfl
    | eq v c => cases v <;> rfl
    | ne v c => cases v <;> rfl
    | always => rfl
  · cases t with
    | bits v m c => cases v <;> exact ⟨_, _, _, _, rfl, rfl⟩
    | lt v c => cases v <;> exact ⟨_, _, _, _, rfl, rfl⟩
    | ge v c => cases v <;> exact ⟨_, _, _, _, rfl, rfl⟩
    | ult v c => cases v <;> exact ⟨_, _, _, _, rfl, rfl⟩
    | uge v c => cases v <;> exact ⟨_, _, _, _, rfl, rfl⟩
    | eq v c => cases v <;> exact ⟨_, _, _, _, rfl, rfl⟩
    | ne v c => cases v <;> exact ⟨_, _, _, _, rfl, rfl⟩
    | always => exact absurd rfl ht

/-- Witness for C10: a concrete non-`Always` guard pushes exactly one
patch, and a concrete `Always` guard emits nothing. -/
theorem lower_test_op_shape_witness :
    lowerTestOp TestOp.always Precision.P32 = [] ∧
    countJumps (lowerTestOp (TestOp.eq (Value.register 0) 0) Precision.P32) = 1 ∧
    (TestOp.eq (Value.register 0) 0 ≠ TestOp.always) := by
  refine ⟨lower_test_op_shape.1 Precision.P32, ?_, by decide⟩
  have h := lower_test_op_shape.2.1 (TestOp.eq (Value.register 0) 0) Precision.P32
  simpa using h

/-- Claim C9: if `Simulation::action` is given an action that reads a
source `Value` with no current binding, the simulator panics with
`"Read a dead value"` (modelled by `none`) rather than emitting a node or
returning a graph. -/
theorem read_dead_value_panics (s : Simulation) (a : Action) (v : Value)
    (hv : v ∈ a.reads) (hdead : s.lookup v = none) :
    s.action a = none := by
  cases a with
  | constant p dest value => cases hv
  | pop dest => cases hv
  | move dest src =>
    have : v = src := by simpa [Action.reads] using hv
    subst this
    simp [Simulation.action, Simulation.moveBinding, hdead]
  | unary op p dest src =>
    have hall := lookupAll_eq_none s [src] v (by simpa [Action.reads] using hv) hdead
    simp [Simulation.action, Simulation.op, hall]
  | binary op p dest src1 src2 =>
    have hall := lookupAll_eq_none s [src1, src2] v (by simpa [Action.reads] using hv) hdead
    simp [Simulation.action, Simulation.op, hall]
  | load dest addr w m =>
    have hall := lookupAll_eq_none s [addr] v (by simpa [Action.reads] using hv) hdead
    simp [Simulation.action, Simulation.op, hall]
  | store dest src addr w m =>
    have hall := lookupAll_eq_none s [src, addr] v (by simpa [Action.reads] using hv) hdead
    simp [Simulation.action, Simulation.op, hall]
  | push src =>
    have hall := lookupAll_eq_none s [src] v (by simpa [Action.reads] using hv) hdead
    simp [Simulation.action, Simulation.op, hall]
  | debug src =>
    have hall := lookupAll_eq_none s [src] v (by simpa [Action.reads] using hv) hdead
    simp [Simulation.action, Simulation.op, hall]

/-- Witness for C9: reading the never-bound slot `3` in a fresh simulation
panics. -/
theorem read_dead_value_panics_witness :
    Value.slot 3 ∈ (Action.move (Value.register 0) (Value.slot 3)).reads ∧
    (Simulation.new []).lookup (Value.slot 3) = none ∧
    (Simulation.new []).action (Action.move (Value.register 0) (Value.slot 3)) = none :=
  ⟨by decide, by decide,
    read_dead_value_panics (Simulation.new []) _ (Value.slot 3) (by decide) (by decide)⟩

/-- Counterexample to claim C7 as stated: when `src` is `dest` itself,
`Simulation::action` on a `Store` leaves `dest` bound to the store node's
own output `(1, 0)`, not to the `Out` that was bound to `src` immediately
before the store (which was the entry output `(0, 0)`). -/
theorem store_rebinding_counterexample :
    (Simulation.action (Simulation.new [Value.register 0, Value.register 1])
        (Action.store 0 (Value.register 0) (Value.register 1) Width.four 1)).map
      (fun s2 => Bindings.lookup s2.bindings (Value.register 0)) = some (some (1, 0)) ∧
    Bindings.lookup (Simulation.new [Value.register 0, Value.register 1]).bindings
      (Value.register 0) = some (0, 0) ∧
    ((1, 0) : Out) ≠ ((0, 0) : Out) := by
  decide

/-- Claim C7, amended: after the simulator processes
`Action::Store(dest, src, (addr, width), mask)` with `src` different from
`dest`, the binding of `dest` is the `Out` that was bound to `src`
immediately before the store, and every other binding is unchanged.  (When
`src` is `dest` itself, `dest` instead ends up bound to the store node's
own output, because `Simulation::op` rebinds `dest` to the new node before
`move_` reads `src`'s binding.) -/
theorem store_rebinds_dest (s : Simulation) (dest : Reg) (src addr : Value)
    (w : Width) (m : AliasMask) (s2 : Simulation)
    (hne : src ≠ Value.register dest)
    (h : s.action (Action.store dest src addr w m) = some s2) :
    Bindings.lookup s2.bindings (Value.register dest) = Bindings.lookup s.bindings src ∧
    ∀ v, v ≠ Value.register dest →
      Bindings.lookup s2.bindings v = Bindings.lookup s.bindings v := by
  simp only [Simulation.action] at h
  cases hsrc : s.lookup src with
  | none =>
    rw [show s.op (Op.store w m) s.loads [src, addr] [dest] = none by
      simp [Simulation.op, Simulation.lookupAll, hsrc]] at h
    simp at h
  | some o1 =>
    cases haddr : s.lookup addr with
    | none =>
      rw [show s.op (Op.store w m) s.loads [src, addr] [dest] = none by
        simp [Simulation.op, Simulation.lookupAll, hsrc, haddr]] at h
      simp at h
    | some o2 =>
      have hsrc2 : Bindings.lookup s.bindings src = some o1 := hsrc
      have hop : s.op (Op.store w m) s.loads [src, addr] [dest] =
          some ({ s with
            dataflow := s.dataflow ++ [⟨Op.store w m, s.loads, [o1, o2], 1⟩]
            bindings := Bindings.insert s.bindings (Value.register dest)
              (s.dataflow.length, 0) }, s.dataflow.length) := by
        simp only [Simulation.op, Simulation.lookupAll, hsrc, haddr,
          Option.some_bind, Option.map_some, List.length_cons, List.length_nil]
        rfl
      rw [hop] at h
      simp only [Option.some_bind, Simulation.moveBinding, Simulation.lookup] at h
      rw [Bindings.lookup_insert, if_neg hne, hsrc2] at h
      simp only [Option.map_some', Option.some.injEq] at h
      subst h
      constructor
      · simp [Bindings.lookup_insert, hsrc2]
      · intro v hvne
        simp [Bindings.lookup_insert, if_neg hvne, hvne]

/-- Witness for the amended C7: a store whose `src` is a different register
from `dest` rebinds `dest` to `src`'s previous binding. -/
theorem store_rebinds_dest_witness :
    (Simulation.action (Simulation.new [Value.register 0, Value.register 1])
        (Action.store 0 (Value.register 1) (Value.register 1) Width.four 1)).map
      (fun s2 => Bindings.lookup s2.bindings (Value.register 0)) = some (some (0, 1)) ∧
    Bindings.lookup (Simulation.new [Value.register 0, Value.register 1]).bindings
      (Value.register 1) = some (0, 1) := by
  constructor
  · cases hs : Simulation.action (Simulation.new [Value.register 0, Value.register 1])
        (Action.store 0 (Value.register 1) (Value.register 1) Width.four 1) with
    | none => exact absurd hs (by decide)
    | some s2 =>
      have h := (store_rebinds_dest (Simulation.new [Value.register 0, Value.register 1])
        0 (Value.register 1) (Value.register 1) Width.four 1 s2 (by decide) hs).1
      simp only [Option.map_some', h]
      decide
  · decide

/-- Claim C6: every register the allocator's `allocation` map can contain is
a dense index below `NUM_REGISTERS = 13`; its x86-64 image is one of the 13
`ALLOCATABLE_REGISTERS`, and none of those is `POOL` (`r8`) or `TEMP`
(`r12`), so the allocator never assigns `POOL` or `TEMP` to any `Out`. -/
theorem allocator_avoids_pool_and_temp :
    ALLOCATABLE_REGISTERS.length = 13 ∧
    (∀ x ∈ ALLOCATABLE_REGISTERS, x ≠ POOL ∧ x ≠ TEMP) ∧
    ∀ (s0 : AllocState) (nodes : List (ANode × Nat × Bool)) (s1 : AllocState),
      allocRun s0 nodes = some s1 →
      ∀ (n : ANode) (r : Fin 13), lookupNode s1.allocation n = some r →
        fromCodeReg r.val ∈ ALLOCATABLE_REGISTERS ∧
        fromCodeReg r.val ≠ POOL ∧ fromCodeReg r.val ≠ TEMP := by
  refine ⟨by decide, by decide, ?_⟩
  intro s0 nodes s1 _ n r _
  exact fin13_alloc_facts r

/-- Witness for C6: a concrete allocator run assigns register index `0`
(x86-64 `RA`), which is allocatable and neither `POOL` nor `TEMP`. -/
theorem allocator_avoids_pool_and_temp_witness :
    lookupNode witAllocResult.allocation 5 = some 0 ∧
    fromCodeReg (0 : Fin 13).val ∈ ALLOCATABLE_REGISTERS ∧
    fromCodeReg (0 : Fin 13).val ≠ POOL ∧ fromCodeReg (0 : Fin 13).val ≠ TEMP :=
  ⟨rfl, allocator_avoids_pool_and_temp.2.2 witAlloc [(5, 0, true)] witAllocResult rfl 5 0 rfl⟩

/-- Claim C1: for every 32-bit integer `x`, compiling
`{ Constant(P32, R, x); Move(Exit, R) }` and executing yields `x`
zero-extended to 64 bits: the simulator masks a `P32` constant to its low
32 bits (here a no-op because `x` fits in 32 bits), binds the exit value to
the constant node's output, code generation re-emits the node as a
64-bit constant of the masked value (`Op::to_action`), and executing the
lowered instruction leaves `x` in the destination register. -/
theorem constant_folding_identity (x : Nat) (r d : Reg) (exitV : Value) (s0 : MState)
    (hx : x < 2 ^ 32) (hd : d < 13) :
    ∃ s1, runActions (Simulation.new [])
        [Action.constant Precision.P32 r x, Action.move exitV (Value.register r)]
        = some s1 ∧
      Simulation.lookup s1 exitV = some (1, 0) ∧
      opAt s1.dataflow 1 = some (Op.constant x) ∧
      Op.toAction (Op.constant x) [d] [] = some (Action.constant Precision.P64 d x) ∧
      (execInstrs s0 (lowerConstantAction Precision.P64 d x)).reg (fromCodeReg d) = x := by
  have hmod : x % 2 ^ 32 = x := Nat.mod_eq_of_lt hx
  have hx64 : x < 2 ^ 64 := lt_trans hx (by norm_num)
  set S1 : Simulation :=
    { dataflow := [⟨Op.convention, [], [], 0⟩, ⟨Op.constant (x % 2 ^ 32), [], [], 1⟩]
      bindings := Bindings.insert [] (Value.register r) (1, 0)
      store := 0
      loads := [0]
      stack := 0 } with hS1
  have h1 : (Simulation.new []).action (Action.constant Precision.P32 r x) = some S1 := rfl
  set S2 : Simulation := { S1 with bindings := Bindings.insert S1.bindings exitV (1, 0) }
    with hS2
  have h2 : S1.action (Action.move exitV (Value.register r)) = some S2 := by
    simp only [Simulation.action, Simulation.moveBinding, Simulation.lookup, hS1,
      Bindings.lookup_insert, if_pos rfl]
    rfl
  refine ⟨S2, ?_, ?_, ?_, rfl, ?_⟩
  · simp [runActions, h1, h2]
  · simp [Simulation.lookup, hS2, Bindings.lookup_insert]
  · have : opAt S2.dataflow 1 = some (Op.constant (x % 2 ^ 32)) := rfl
    rw [this, hmod]
  · have him : immPattern Precision.P64 (Int.ofNat x) = x := by
      have e : (2 : Nat) ^ 64 = 18446744073709551616 := by norm_num
      have hx64b := hx64
      rw [e] at hx64b
      simp only [immPattern, Precision.bits, Int.ofNat_eq_coe, e]
      omega
    simp only [lowerConstantAction, execInstrs, List.foldl_cons, List.foldl_nil,
      stepInstr, him]
    simp [MState.write, MState.reg, Precision.bits, Nat.mod_eq_of_lt hx64]
    omega

/-- Witness for C1: the concrete constant `0xdeadbeef` survives the
pipeline and lands zero-extended in the destination register. -/
theorem constant_folding_identity_witness :
    (0xdeadbeef : Nat) < 2 ^ 32 ∧ (1 : Reg) < 13 ∧
    (execInstrs zeroMState (lowerConstantAction Precision.P64 1 0xdeadbeef)).reg
      (fromCodeReg 1) = 0xdeadbeef :=
  ⟨by decide, by decide, by
    obtain ⟨s1, _, _, _, _, h5⟩ :=
      constant_folding_identity 0xdeadbeef 0 1 (Value.slot 0) zeroMState
        (by decide) (by decide)
    exact h5⟩

/-- Claim C2: for every `Binary(Lt | Ult | Eq, p, dest, src1, src2)` action,
if the pool word at `[POOL + 0]` (the reserved zero word) contains zero,
the lowered x86-64 sequence leaves all-ones (the `-1` encoding at precision
`p`) in `dest` when the comparison holds and `0` when it does not, for both
precisions. -/
theorem comparison_boolean_encoding (op : BinaryOp) (p : Precision) (dest : Reg)
    (src1 src2 : Value) (s : MState)
    (hop : op = BinaryOp.lt ∨ op = BinaryOp.ult ∨ op = BinaryOp.eq)
    (hdest : dest < 13)
    (h1 : src1.valid13 = true) (h2 : src2.valid13 = true)
    (hzero : s.read POOL 0 = 0) :
    (execInstrs s (lowerBinaryOp op p dest src1 src2)).reg (fromCodeReg dest) =
      if cmpHolds op p (readValue s src1) (readValue s src2) then allOnes p else 0 := by
  obtain ⟨-, hdP, hdT, -⟩ := fromCodeReg_facts dest hdest
  have h2T : toXValue src2 ≠ XValue.register TEMP := by
    cases src2 with
    | register r =>
      simp only [Value.valid13, decide_eq_true_eq] at h2
      obtain ⟨-, -, hrT, -⟩ := fromCodeReg_facts r h2
      simp only [toXValue, ne_eq, XValue.register.injEq]
      exact hrT
    | slot sl => simp [toXValue]
  rcases hop with rfl | rfl | rfl
  · rw [show lowerBinaryOp BinaryOp.lt p dest src1 src2 =
        compareBinary p (fromCodeReg dest) (toXValue src1) (toXValue src2) (fun d _ =>
          [Instr.constPreserving p d (-1), Instr.loadIf Cond.L false p d POOL 0])
      from rfl]
    rw [compare_select_exec p (fromCodeReg dest) _ _ Cond.L s hdP hdT h2T hzero]
    rw [readValue_eq, readValue_eq]
    rfl
  · rw [show lowerBinaryOp BinaryOp.ult p dest src1 src2 =
        compareBinary p (fromCodeReg dest) (toXValue src1) (toXValue src2) (fun d _ =>
          [Instr.constPreserving p d (-1), Instr.loadIf Cond.B false p d POOL 0])
      from rfl]
    rw [compare_select_exec p (fromCodeReg dest) _ _ Cond.B s hdP hdT h2T hzero]
    rw [readValue_eq, readValue_eq]
    rfl
  · rw [show lowerBinaryOp BinaryOp.eq p dest src1 src2 =
        compareBinary p (fromCodeReg dest) (toXValue src1) (toXValue src2) (fun d _ =>
          [Instr.constPreserving p d (-1), Instr.loadIf Cond.Z false p d POOL 0])
      from rfl]
    rw [compare_select_exec p (fromCodeReg dest) _ _ Cond.Z s hdP hdT h2T hzero]
    rw [readValue_eq, readValue_eq]
    rfl

/-- Witness for C2: `7 < 9` (signed, 64-bit) lowers and executes to the
all-ones encoding of "true". -/
theorem comparison_boolean_encoding_witness :
    (execInstrs testState (lowerBinaryOp BinaryOp.lt Precision.P64 0
        (Value.register 1) (Value.register 2))).reg (fromCodeReg 0)
      = allOnes Precision.P64 := by
  rw [comparison_boolean_encoding BinaryOp.lt Precision.P64 0 (Value.register 1)
    (Value.register 2) testState (Or.inl rfl) (by decide) (by decide) (by decide)
    (by decide)]
  decide

/-- Counterexample to claim C4 as stated: lowering
`Binary(Lsl, P32, dest, src1, src2)` with `src1 = 1` and a runtime shift
count of `32` (equal to the word width) and executing it leaves `1` in
`dest`, not `0` — the emitted x86-64 shift masks its count to the operand
width (the lowerer has a `TODO` at exactly this point). -/
theorem shift_width_counterexample :
    Precision.P32.bits ≤ readValue cState (Value.register 3) ∧
    readValue cState (Value.register 1) = 1 ∧
    (execInstrs cState (lowerBinaryOp BinaryOp.lsl Precision.P32 0
        (Value.register 1) (Value.register 3))).reg (fromCodeReg 0) = 1 ∧
    (1 : Nat) ≠ 0 := by
  refine ⟨by decide, by decide, by decide, by decide⟩

/-- Claim C4, amended: x86-64 masks shift counts to the operand width, so
executing the lowered code for `Binary(Lsl | Lsr, p, dest, src1, src2)`
leaves `src1` shifted by `src2 mod width(p)` in `dest`; a count at or above
the word width is reduced modulo the width and the result is in general not
zero.  (Proved for operands that do not name `RC`, the register the
lowering reserves for the shift count: `dest` and `src1` must not be code
register `2`, whose x86-64 image is `RC`.) -/
theorem shift_masks_count (op : BinaryOp) (sop : ShiftOp) (p : Precision) (dest : Reg)
    (src1 src2 : Value) (s : MState)
    (hop : op = BinaryOp.lsl ∧ sop = ShiftOp.shl ∨ op = BinaryOp.lsr ∧ sop = ShiftOp.shr)
    (hdest : dest < 13) (hdest2 : dest ≠ 2)
    (h1 : src1.validShift = true) (h2 : src2.valid13 = true) :
    (execInstrs s (lowerBinaryOp op p dest src1 src2)).reg (fromCodeReg dest) =
      shiftResult sop p.bits (readValue s src1) (readValue s src2) := by
  obtain ⟨-, hdP, hdT, -⟩ := fromCodeReg_facts dest hdest
  have hRCfact : ∀ d, d < 13 → d ≠ 2 → fromCodeReg d ≠ XReg.RC := by decide
  have hdRC : fromCodeReg dest ≠ XReg.RC := hRCfact dest hdest hdest2
  have h1RC : toXValue src1 ≠ XValue.register XReg.RC := by
    cases src1 with
    | register r =>
      simp only [Value.validShift, Bool.and_eq_true, decide_eq_true_eq] at h1
      simp only [toXValue, ne_eq, XValue.register.injEq]
      exact hRCfact r h1.1 h1.2
    | slot sl => simp [toXValue]
  have h1T : toXValue src1 ≠ XValue.register TEMP := by
    cases src1 with
    | register r =>
      simp only [Value.validShift, Bool.and_eq_true, decide_eq_true_eq] at h1
      obtain ⟨-, -, hrT, -⟩ := fromCodeReg_facts r h1.1
      simp only [toXValue, ne_eq, XValue.register.injEq]
      exact hrT
    | slot sl => simp [toXValue]
  have h2T : toXValue src2 ≠ XValue.register TEMP := by
    cases src2 with
    | register r =>
      simp only [Value.valid13, decide_eq_true_eq] at h2
      obtain ⟨-, -, hrT, -⟩ := fromCodeReg_facts r h2
      simp only [toXValue, ne_eq, XValue.register.injEq]
      exact hrT
    | slot sl => simp [toXValue]
  rcases hop with ⟨rfl, rfl⟩ | ⟨rfl, rfl⟩
  · rw [show lowerBinaryOp BinaryOp.lsl p dest src1 src2 =
        shiftBinary ShiftOp.shl p (fromCodeReg dest) (toXValue src1) (toXValue src2)
      from rfl]
    rw [shift_exec ShiftOp.shl p (fromCodeReg dest) _ _ s hdRC hdP hdT h1RC h1T h2T]
    rw [readValue_eq, readValue_eq]
  · rw [show lowerBinaryOp BinaryOp.lsr p dest src1 src2 =
        shiftBinary ShiftOp.shr p (fromCodeReg dest) (toXValue src1) (toXValue src2)
      from rfl]
    rw [shift_exec ShiftOp.shr p (fromCodeReg dest) _ _ s hdRC hdP hdT h1RC h1T h2T]
    rw [readValue_eq, readValue_eq]

/-- Witness for the amended C4: shifting `7` left by `9` at `P32` leaves
`3584` in the destination. -/
theorem shift_masks_count_witness :
    (execInstrs testState (lowerBinaryOp BinaryOp.lsl Precision.P32 0
        (Value.register 1) (Value.register 2))).reg (fromCodeReg 0) = 3584 := by
  rw [shift_masks_count BinaryOp.lsl ShiftOp.shl Precision.P32 0 (Value.register 1)
    (Value.register 2) testState (Or.inl ⟨rfl, rfl⟩) (by decide) (by decide)
    (by decide) (by decide)]
  decide

/-- Claim C3: in every dataflow graph the simulator builds from an action
sequence, every `Load` node depends via `dep` edges (transitively) on the
most recent preceding `Store` node whose `AliasMask` conflicts with the
load's mask (the entry node if there is none), and every `Store` node
depends directly on all `Load`s with a conflicting mask that occurred since
the previous `Store`.  (The code is conservative: a `Load` depends on the
most recent `Store` of *any* mask, which dependency-chains through every
earlier `Store`; a `Store` lists *all* open loads as dependencies.) -/
theorem load_store_dependency_invariant (inputs : List Value) (actions : List Action)
    (s : Simulation)
    (h : runActions (Simulation.new inputs) actions = some s) :
    (∀ j w m, opAt s.dataflow j = some (Op.load w m) →
      reach s.dataflow j (recentConflictingStore s.dataflow j m) = true) ∧
    (∀ j w m, opAt s.dataflow j = some (Op.store w m) →
      ∀ l w2 m2, opAt s.dataflow l = some (Op.load w2 m2) →
        AliasMask.canAlias m2 m = true →
        lastStoreBefore s.dataflow j < l → l < j →
        l ∈ depsAt s.dataflow j) := by
  have inv := runActions_preserves actions _ s (simInv_new inputs) h
  constructor
  · intro j w m hop
    have hload : isLoadAt s.dataflow j = true := by
      unfold isLoadAt
      rw [hop]
    have hj0 : j ≠ 0 := by
      intro h0
      subst h0
      rw [inv.entryConv] at hop
      simp at hop
    cases hf : (List.range j).reverse.find? (conflictsStore s.dataflow m) with
    | none =>
      rw [show recentConflictingStore s.dataflow j m = 0 by
        unfold recentConflictingStore
        rw [hf]
        rfl]
      exact inv.claimA j hload 0 (Nat.pos_of_ne_zero hj0) (Or.inl rfl)
    | some i =>
      rw [show recentConflictingStore s.dataflow j m = i by
        unfold recentConflictingStore
        rw [hf]
        rfl]
      obtain ⟨hij, hPi⟩ := findLargest_mem hf
      have hstore : isStoreAt s.dataflow i = true := by
        unfold conflictsStore at hPi
        unfold isStoreAt
        cases ho : opAt s.dataflow i with
        | none => rw [ho] at hPi; simp at hPi
        | some o =>
          rw [ho] at hPi
          cases o <;> simp_all
      exact inv.claimA j hload i hij (Or.inr hstore)
  · intro j w m hop l w2 m2 hlop hconflict hlast hlj
    have hload : isLoadAt s.dataflow l = true := by
      unfold isLoadAt
      rw [hlop]
    exact inv.claimB j w m hop l hlj hload hlast

theorem load_store_dependency_invariant_witness :
    runActions (Simulation.new [Value.register 0, Value.register 1]) demoActions
      = some demoSim ∧
    opAt demoSim.dataflow 2 = some (Op.load Width.four 3) ∧
    recentConflictingStore demoSim.dataflow 2 3 = 1 ∧
    reach demoSim.dataflow 2 1 = true ∧
    opAt demoSim.dataflow 3 = some (Op.store Width.four 1) ∧
    lastStoreBefore demoSim.dataflow 3 = 1 ∧
    2 ∈ depsAt demoSim.dataflow 3 := by
  refine ⟨by decide, by decide, by decide, ?_, by decide, by decide, ?_⟩
  · have h2 := (load_store_dependency_invariant [Value.register 0, Value.register 1]
      demoActions demoSim (by decide)).1 2 Width.four 3 (by decide)
    rw [show recentConflictingStore demoSim.dataflow 2 3 = 1 from by decide] at h2
    exact h2
  · exact (load_store_dependency_invariant [Value.register 0, Value.register 1]
      demoActions demoSim (by decide)).2 3 Width.four 1 (by decide) 2 Width.four 3
      (by decide) (by decide) (by decide) (by decide)

/-- C5: `spill_until(k)`, invoked with fewer than `k` clean registers, repeatedly
spills until at least `k` registers are clean (part 1), and does nothing when `k`
registers are already clean (part 2). Each iteration (`spillStep`, part 3) selects
two dirty registers by two calls to `free_a_register`, emits exactly one
`Spill(out_x, out_y)` pseudo-instruction naming both occupants, and marks both
registers clean, leaving the register contents, usage and allocation unchanged.
`free_a_register` (part 4) implements Belady's MIN rule: the selected register is
dirty, and its occupant's topmost usage-stack position is minimal (i.e. its next
use is furthest) among the occupants of all dirty registers, with ties broken in
favour of the lowest register index. -/
theorem spill_until_belady :
    (∀ f k s s2, spillUntilF f k s = some s2 → k ≤ numClean s2) ∧
    (∀ f k s, k ≤ numClean s → spillUntilF f k s = some s) ∧
    (∀ s s2, spillStep s = some s2 →
      ∃ rx ry ox oy,
        freeARegister s = some (rx, freeReg s rx) ∧
        freeARegister (freeReg s rx) = some (ry, freeReg (freeReg s rx) ry) ∧
        s.regs rx = some ox ∧ s.regs ry = some oy ∧
        s2.emitted = s.emitted ++ [AInstr.spill ox oy] ∧
        s2.clean rx = true ∧ s2.clean ry = true ∧
        s2.regs = s.regs ∧ s2.usage = s.usage ∧ s2.allocation = s.allocation) ∧
    (∀ s r t, freeARegister s = some (r, t) →
      t = freeReg s r ∧ s.clean r = false ∧
      ∃ n u, s.regs r = some n ∧ topmost s.usage n = some u ∧
        ∀ r2 n2 u2, s.clean r2 = false → s.regs r2 = some n2 →
          topmost s.usage n2 = some u2 → u ≤ u2 ∧ (u2 = u → r ≤ r2)) :=
  ⟨spillUntilF_clean, spillUntilF_noop, spillStep_spec, freeARegister_spec⟩

/-- Witness for C5: spilling `demoAlloc` (ten clean registers, nodes `3`, `7`,
`5` dirty, node `5` furthest) until 12 registers are clean emits exactly one
`Spill(5, 3)` and reaches 12 clean registers. -/
theorem spill_until_belady_witness :
    12 ≤ numClean demoAllocResult ∧ demoAllocResult.emitted = [AInstr.spill 5 3] :=
  ⟨spill_until_belady.1 13 12 demoAlloc demoAllocResult rfl, rfl⟩

end Mijit
